import Mathlib

/-!
# Order matching engine: shallow embedding and verification

This file embeds the per-symbol order matching engine (Go sources:
`internal/engine/matcher.go`, the order-book file with `AddOrder`,
`RemoveOrder`, `addToBids`, `addToAsks`, `NewOrder`, and the type
declarations) into Lean and proves/refutes the frozen specification claims.

Modelling conventions:
* Go `int64` prices and quantities become `Int` (no operation in the engine
  approaches the 64-bit range on the inputs the spec admits).
* Go heap pointers shared between a book's price levels and its
  `Orders` map become an explicit arena `List (Nat × Order)` keyed by the
  order id; a price level stores order ids.  `uuid.New()` for order ids is
  abstracted to a monotone counter (ids are opaque and unique); trade
  uuids and `time.Now()` timestamps are drawn from an explicit `Supply` of
  functions indexed by a draw counter, so nondeterminism of ids/timestamps
  is represented faithfully.
* Each Go function keeps its name (`matchBuyOrder`/`matchSellOrder` are the
  two instantiations of `matchSide`, which carries the side that is the only
  textual difference between the two Go functions).
-/

set_option maxHeartbeats 1600000

namespace OME

/-- Order side (`BUY` / `SELL`). -/
inductive Side where
  | buy
  | sell
  deriving DecidableEq, Repr

/-- Order type (`LIMIT` / `MARKET`). -/
inductive OType where
  | limit
  | market
  deriving DecidableEq, Repr

/-- Order status (`ACCEPTED` / `PARTIAL_FILL` / `FILLED` / `CANCELLED`). -/
inductive OStatus where
  | accepted
  | partialFill
  | filled
  | cancelled
  deriving DecidableEq, Repr

/-- The `Order` struct. `id` abstracts the uuid string as a unique `Nat`. -/
structure Order where
  id : Nat
  symbol : String
  side : Side
  otype : OType
  price : Int
  quantity : Int
  filledQuantity : Int
  status : OStatus
  timestamp : Nat
  deriving DecidableEq, Repr

/-- The `Trade` struct. `tid` abstracts the trade uuid. -/
structure Trade where
  tid : Nat
  price : Int
  quantity : Int
  timestamp : Nat
  buyerId : Nat
  sellerId : Nat
  deriving DecidableEq, Repr

/-- A `PriceLevel`: a price plus the FIFO queue of resting order ids. -/
structure PriceLevel where
  price : Int
  orders : List Nat
  deriving DecidableEq, Repr

/-- The per-symbol `OrderBook`: two ladders plus the id index (`Orders` map,
modelled as the list of registered ids; the records live in the engine arena). -/
structure OrderBook where
  symbol : String
  bids : List PriceLevel
  asks : List PriceLevel
  orders : List Nat
  deriving DecidableEq, Repr

/-- The `MatchingEngine`: arena of allocated-and-registered orders, the
symbol-to-book map, the order-id counter, and the supply draw counter. -/
structure Engine where
  heap : List (Nat × Order)
  books : List (String × OrderBook)
  nextId : Nat
  tick : Nat
  deriving DecidableEq, Repr

/-- Errors surfaced by `SubmitOrder`. -/
inductive SubmitErr where
  | invalidQuantity
  | invalidPrice
  | insufficientLiquidity
  deriving DecidableEq, Repr

/-- Errors surfaced by `CancelOrder`. -/
inductive CancelErr where
  | notFound
  | alreadyFilled
  deriving DecidableEq, Repr

/-- The `OrderResult` record returned by `SubmitOrder`. -/
structure OrderResult where
  orderId : Nat
  status : OStatus
  filledQuantity : Int
  remainingQuantity : Int
  trades : List Trade
  deriving DecidableEq, Repr

/-- Sources of the nondeterministic draws (`uuid.New`, `time.Now`),
indexed by a per-engine draw counter. -/
structure Supply where
  uuid : Nat → Nat
  clock : Nat → Nat

/-- Placeholder order used for a lookup of an unallocated id
(never reached from well-formed states). -/
def noOrder : Order :=
  ⟨0, "", Side.buy, OType.limit, 0, 0, 0, OStatus.accepted, 0⟩

/-- Arena lookup (pointer dereference via the id). -/
def hlookup : List (Nat × Order) → Nat → Option Order
  | [], _ => none
  | p :: t, i => if p.1 = i then some p.2 else hlookup t i

/-- Total version of `hlookup`. -/
def hfind (h : List (Nat × Order)) (i : Nat) : Order :=
  (hlookup h i).getD noOrder

/-- In-place mutation of the order record with id `i` (pointer write). -/
def hupdate : List (Nat × Order) → Nat → Order → List (Nat × Order)
  | [], _, _ => []
  | p :: t, i, o => if p.1 = i then (i, o) :: hupdate t i o else p :: hupdate t i o

/-- Register a (possibly new) order record in the arena. -/
def hinsert (h : List (Nat × Order)) (i : Nat) (o : Order) : List (Nat × Order) :=
  if (hlookup h i).isSome then hupdate h i o else h ++ [(i, o)]

/-- Remaining quantity `quantity - filled` of the order with id `i`. -/
def remOf (h : List (Nat × Order)) (i : Nat) : Int :=
  (hfind h i).quantity - (hfind h i).filledQuantity

/-- Aggregate remaining quantity at one price level. -/
def levelRem (h : List (Nat × Order)) (lvl : PriceLevel) : Int :=
  (lvl.orders.map (remOf h)).sum

/-- Aggregate remaining quantity over a whole ladder
(the `availableLiquidity` loop of `matchMarketOrder`). -/
def sideRem (h : List (Nat × Order)) (ls : List PriceLevel) : Int :=
  (ls.map (levelRem h)).sum

/-- All order ids resting on a ladder, in ladder-then-queue order. -/
def levelIds : List PriceLevel → List Nat
  | [] => []
  | lvl :: rest => lvl.orders ++ levelIds rest

/-- All order ids resting anywhere in a book. -/
def bookIds (b : OrderBook) : List Nat :=
  levelIds b.bids ++ levelIds b.asks

/-- Result of the inner (price level) matching loop. -/
structure InnerRes where
  tick : Nat
  heap : List (Nat × Order)
  agg : Order
  rest : List Nat
  trades : List Trade
  deriving Repr

/-- Result of the outer (ladder) matching loop. -/
structure SideRes where
  tick : Nat
  heap : List (Nat × Order)
  agg : Order
  levels : List PriceLevel
  trades : List Trade
  deriving Repr

/-- The inner loop of `matchBuyOrder`/`matchSellOrder`: consume the FIFO queue
of one price level while the aggressor still needs quantity.  Guard, trade
construction at the resting order's price, fill bookkeeping, and the
FILLED-pop / PARTIAL_FILL-stop branches follow the Go loop body verbatim. -/
def matchLevel (s : Supply) (side : Side) :
    Nat → List (Nat × Order) → Order → List Nat → InnerRes
  | tick, h, agg, [] => ⟨tick, h, agg, [], []⟩
  | tick, h, agg, rid :: rest =>
    if agg.filledQuantity < agg.quantity then
      let resting := hfind h rid
      let tq := min (agg.quantity - agg.filledQuantity)
        (resting.quantity - resting.filledQuantity)
      let tr : Trade :=
        { tid := s.uuid tick
          price := resting.price
          quantity := tq
          timestamp := s.clock tick
          buyerId := if side = Side.buy then agg.id else rid
          sellerId := if side = Side.buy then rid else agg.id }
      let agg' := { agg with filledQuantity := agg.filledQuantity + tq }
      if resting.filledQuantity + tq = resting.quantity then
        let h' := hupdate h rid
          { resting with
            filledQuantity := resting.filledQuantity + tq
            status := OStatus.filled }
        let r := matchLevel s side (tick + 1) h' agg' rest
        ⟨r.tick, r.heap, r.agg, r.rest, tr :: r.trades⟩
      else
        ⟨tick + 1,
         hupdate h rid
           { resting with
             filledQuantity := resting.filledQuantity + tq
             status := OStatus.partialFill },
         agg', rid :: rest, [tr]⟩
    else ⟨tick, h, agg, rid :: rest, []⟩

/-- The LIMIT cross check of the outer matching loop: a limit buy stops below
the best ask, a limit sell stops above the best bid; market orders never
stop for price reasons. -/
def crossStop (side : Side) (agg : Order) (lvl : PriceLevel) : Prop :=
  agg.otype = OType.limit ∧
    (if side = Side.buy then agg.price < lvl.price else lvl.price < agg.price)

instance (side : Side) (agg : Order) (lvl : PriceLevel) :
    Decidable (crossStop side agg lvl) :=
  inferInstanceAs (Decidable (_ ∧ _))

/-- The outer loop of `matchBuyOrder`/`matchSellOrder`: walk the opposing
ladder from the best level while the aggressor needs quantity, stopping at
the LIMIT cross check, and drop a level once its queue empties. -/
def matchSide (s : Supply) (side : Side) :
    Nat → List (Nat × Order) → Order → List PriceLevel → SideRes
  | tick, h, agg, [] => ⟨tick, h, agg, [], []⟩
  | tick, h, agg, lvl :: rest =>
    if agg.filledQuantity < agg.quantity then
      if crossStop side agg lvl then
        ⟨tick, h, agg, lvl :: rest, []⟩
      else
        let r := matchLevel s side tick h agg lvl.orders
        if r.rest.isEmpty then
          let r2 := matchSide s side r.tick r.heap r.agg rest
          ⟨r2.tick, r2.heap, r2.agg, r2.levels, r.trades ++ r2.trades⟩
        else
          ⟨r.tick, r.heap, r.agg, { lvl with orders := r.rest } :: rest, r.trades⟩
    else ⟨tick, h, agg, lvl :: rest, []⟩

/-- `matchBuyOrder`: match a buy aggressor against the asks. -/
def matchBuyOrder (s : Supply) (tick : Nat) (h : List (Nat × Order))
    (agg : Order) (asks : List PriceLevel) : SideRes :=
  matchSide s Side.buy tick h agg asks

/-- `matchSellOrder`: match a sell aggressor against the bids. -/
def matchSellOrder (s : Supply) (tick : Nat) (h : List (Nat × Order))
    (agg : Order) (bids : List PriceLevel) : SideRes :=
  matchSide s Side.sell tick h agg bids

/-- Find the first level carrying price `p` and append the id at its tail
(the find-or-create scan of `addToBids`/`addToAsks`); `none` if no level
carries `p`. -/
def appendAtPrice (p : Int) (i : Nat) : List PriceLevel → Option (List PriceLevel)
  | [] => none
  | lvl :: rest =>
    if lvl.price = p then some ({ lvl with orders := lvl.orders ++ [i] } :: rest)
    else (appendAtPrice p i rest).map (fun ls => lvl :: ls)

/-- Bid ladder order: higher price first (the `sort.Slice` comparator of
`addToBids`, totalised to a preorder; level prices are pairwise distinct at
every call site, so the sorted result is the one the Go sort produces). -/
def bidGE (l1 l2 : PriceLevel) : Prop := l2.price ≤ l1.price

/-- Ask ladder order: lower price first (comparator of `addToAsks`). -/
def askLE (l1 l2 : PriceLevel) : Prop := l1.price ≤ l2.price

instance : DecidableRel bidGE :=
  fun l1 l2 => inferInstanceAs (Decidable (l2.price ≤ l1.price))

instance : DecidableRel askLE :=
  fun l1 l2 => inferInstanceAs (Decidable (l1.price ≤ l2.price))

instance : IsTotal PriceLevel bidGE :=
  ⟨fun a b => le_total b.price a.price⟩

instance : IsTrans PriceLevel bidGE :=
  ⟨fun _ _ _ h1 h2 => le_trans h2 h1⟩

instance : IsTotal PriceLevel askLE :=
  ⟨fun a b => le_total a.price b.price⟩

instance : IsTrans PriceLevel askLE :=
  ⟨fun _ _ _ h1 h2 => le_trans h1 h2⟩

/-- `addToBids`: append at an existing level, else create the level and
re-sort the ladder, highest price first. -/
def addToBids (bids : List PriceLevel) (o : Order) : List PriceLevel :=
  match appendAtPrice o.price o.id bids with
  | some ls => ls
  | none => List.insertionSort bidGE (bids ++ [⟨o.price, [o.id]⟩])

/-- `addToAsks`: append at an existing level, else create the level and
re-sort the ladder, lowest price first. -/
def addToAsks (asks : List PriceLevel) (o : Order) : List PriceLevel :=
  match appendAtPrice o.price o.id asks with
  | some ls => ls
  | none => List.insertionSort askLE (asks ++ [⟨o.price, [o.id]⟩])

/-- `OrderBook.AddOrder`: register the id in the `Orders` map and insert the
order into its side's ladder. -/
def addOrderBook (b : OrderBook) (o : Order) : OrderBook :=
  let b1 := { b with orders := if o.id ∈ b.orders then b.orders else b.orders ++ [o.id] }
  if o.side = Side.buy then { b1 with bids := addToBids b1.bids o }
  else { b1 with asks := addToAsks b1.asks o }

/-- Remove the first occurrence of an id from a level queue
(the remove-and-break loop of `removeFromBids`/`removeFromAsks`). -/
def removeFirstId (i : Nat) : List Nat → List Nat
  | [] => []
  | x :: xs => if x = i then xs else x :: removeFirstId i xs

/-- `removeFromBids`/`removeFromAsks`: find the first level carrying the
order's price, remove the order there, and drop the level if it empties. -/
def removeIdFromLevels (p : Int) (i : Nat) : List PriceLevel → List PriceLevel
  | [] => []
  | lvl :: rest =>
    if lvl.price = p then
      let os := removeFirstId i lvl.orders
      if os.isEmpty then rest else { lvl with orders := os } :: rest
    else lvl :: removeIdFromLevels p i rest

/-- The ladder part of `OrderBook.RemoveOrder` (the id stays registered in
the `Orders` map, as in the Go code). -/
def removeOrderBook (b : OrderBook) (o : Order) : OrderBook :=
  if o.side = Side.buy then { b with bids := removeIdFromLevels o.price o.id b.bids }
  else { b with asks := removeIdFromLevels o.price o.id b.asks }

/-- A fresh empty book (`NewOrderBook`). -/
def emptyBook (sym : String) : OrderBook := ⟨sym, [], [], []⟩

/-- Symbol lookup in the registry. -/
def findBook : List (String × OrderBook) → String → Option OrderBook
  | [], _ => none
  | p :: t, sym => if p.1 = sym then some p.2 else findBook t sym

/-- Store an updated book back under its symbol. -/
def setBook : List (String × OrderBook) → String → OrderBook → List (String × OrderBook)
  | [], _, _ => []
  | p :: t, sym, b => if p.1 = sym then (sym, b) :: setBook t sym b else p :: setBook t sym b

/-- `GetOrCreateBook` on the registry map. -/
def getOrCreateBooks (books : List (String × OrderBook)) (sym : String) :
    List (String × OrderBook) :=
  if (findBook books sym).isSome then books else books ++ [(sym, emptyBook sym)]

/-- The book currently registered for `sym` (empty if the symbol is unknown). -/
def bookOf (e : Engine) (sym : String) : OrderBook :=
  (findBook e.books sym).getD (emptyBook sym)

/-- `NewOrder`: construct the order record (fresh id, zero filled, status
ACCEPTED, current timestamp). -/
def newOrder (s : Supply) (tick : Nat) (nid : Nat) (symbol : String) (side : Side)
    (otype : OType) (price quantity : Int) : Order :=
  ⟨nid, symbol, side, otype, price, quantity, 0, OStatus.accepted, s.clock tick⟩

/-- The ladder a submission with this side matches against. -/
def opposingOf (b : OrderBook) (side : Side) : List PriceLevel :=
  if side = Side.buy then b.asks else b.bids

/-- The ladder a resting remainder of this side is inserted into. -/
def ownOf (b : OrderBook) (side : Side) : List PriceLevel :=
  if side = Side.buy then b.bids else b.asks

/-- Write back the matcher's updated opposing ladder into the book. -/
def setOpposing (b : OrderBook) (side : Side) (levels : List PriceLevel) : OrderBook :=
  if side = Side.buy then { b with asks := levels } else { b with bids := levels }

/-- `MatchingEngine.SubmitOrder`: validation, lazy book creation, order
construction (`NewOrder`), the market liquidity precheck, delegation to the
side matcher, and the rest-or-finish result construction. -/
def submitOrder (s : Supply) (e : Engine) (sym : String) (side : Side)
    (otype : OType) (price quantity : Int) : Engine × Except SubmitErr OrderResult :=
  if quantity ≤ 0 then (e, Except.error SubmitErr.invalidQuantity)
  else if otype = OType.limit ∧ price ≤ 0 then (e, Except.error SubmitErr.invalidPrice)
  else
    let books1 := getOrCreateBooks e.books sym
    let b := (findBook books1 sym).getD (emptyBook sym)
    let order := newOrder s e.tick e.nextId sym side otype price quantity
    let tick1 := e.tick + 1
    let opposing := opposingOf b side
    if otype = OType.market ∧ sideRem e.heap opposing < quantity then
      ({ e with books := books1, nextId := e.nextId + 1, tick := tick1 },
       Except.error SubmitErr.insufficientLiquidity)
    else
      let r := matchSide s side tick1 e.heap order opposing
      let b1 := setOpposing b side r.levels
      let o' := r.agg
      if o'.filledQuantity < o'.quantity ∧ otype = OType.limit then
        let b2 := addOrderBook b1 o'
        let res : OrderResult :=
          ⟨o'.id,
           (if 0 < o'.filledQuantity then OStatus.partialFill else OStatus.accepted),
           o'.filledQuantity, o'.quantity - o'.filledQuantity, r.trades⟩
        ({ heap := hinsert r.heap o'.id o'
           books := setBook books1 sym b2
           nextId := e.nextId + 1
           tick := r.tick },
         Except.ok res)
      else
        let res : OrderResult :=
          ⟨o'.id,
           (if o'.filledQuantity = o'.quantity then OStatus.filled else o'.status),
           o'.filledQuantity, 0, r.trades⟩
        ({ heap := r.heap
           books := setBook books1 sym b1
           nextId := e.nextId + 1
           tick := r.tick },
         Except.ok res)

/-- The cross-book scan of `CancelOrder`/`GetOrder`: first book whose
`Orders` map holds the id (ids are globally unique, so at most one does). -/
def findBookWith : List (String × OrderBook) → Nat → Option (String × OrderBook)
  | [], _ => none
  | p :: t, i => if i ∈ p.2.orders then some p else findBookWith t i

/-- `MatchingEngine.CancelOrder`: reject an unknown id or a FILLED order,
otherwise mark CANCELLED and remove the order from its price level (the id
stays registered for status queries). -/
def cancelOrder (e : Engine) (i : Nat) : Engine × Except CancelErr Unit :=
  match findBookWith e.books i with
  | none => (e, Except.error CancelErr.notFound)
  | some (sym, b) =>
    let o := hfind e.heap i
    if o.status = OStatus.filled then (e, Except.error CancelErr.alreadyFilled)
    else
      let o' := { o with status := OStatus.cancelled }
      ({ e with
         heap := hupdate e.heap i o'
         books := setBook e.books sym (removeOrderBook b o') },
       Except.ok ())

/-- `MatchingEngine.GetOrder`: find the registering book and return the record. -/
def getOrder (e : Engine) (i : Nat) : Option Order :=
  match findBookWith e.books i with
  | none => none
  | some _ => some (hfind e.heap i)

/-- One external engine operation. -/
inductive Op where
  | sub (s : Supply) (sym : String) (side : Side) (otype : OType) (price quantity : Int)
  | cancel (i : Nat)

/-- Apply one operation to the engine state. -/
def applyOp (e : Engine) : Op → Engine
  | Op.sub s sym side otype p q => (submitOrder s e sym side otype p q).1
  | Op.cancel i => (cancelOrder e i).1

/-- Run a sequence of operations. -/
def runOps (e : Engine) : List Op → Engine
  | [] => e
  | op :: ops => runOps (applyOp e op) ops

/-- The initial engine (`NewMatchingEngine`). -/
def emptyEngine : Engine := ⟨[], [], 0, 0⟩

/-- One submission request, for replay runs. -/
structure Sub where
  symbol : String
  side : Side
  otype : OType
  price : Int
  quantity : Int

/-- Apply a list of submissions sequentially, collecting the emitted trades
of the successful ones in order. -/
def runSubs (s : Supply) : Engine → List Sub → Engine × List Trade
  | e, [] => (e, [])
  | e, sb :: sbs =>
    let step := submitOrder s e sb.symbol sb.side sb.otype sb.price sb.quantity
    let ts := match step.2 with
      | Except.ok res => res.trades
      | Except.error _ => []
    let rec' := runSubs s step.1 sbs
    (rec'.1, ts ++ rec'.2)

/-- The observable projection of a trade the determinism claim compares:
price, quantity, and buyer/seller counterparty assignment. -/
def tradeObs (t : Trade) : Int × Int × Nat × Nat :=
  (t.price, t.quantity, t.buyerId, t.sellerId)

/-- Total quantity of a trade list. -/
def sumQty (ts : List Trade) : Int := (ts.map Trade.quantity).sum

/-- Bid ladder strictly decreasing in price. -/
def ladderDesc (ls : List PriceLevel) : Prop :=
  List.Pairwise (fun l1 l2 => l2.price < l1.price) ls

/-- Ask ladder strictly increasing in price. -/
def ladderAsc (ls : List PriceLevel) : Prop :=
  List.Pairwise (fun l1 l2 => l1.price < l2.price) ls

/-- The book is not crossed at rest: best bid strictly below best ask
whenever both ladders are non-empty. -/
def notCrossed (b : OrderBook) : Prop :=
  ∀ lb ∈ b.bids.head?, ∀ la ∈ b.asks.head?, lb.price < la.price

/-- The book-shape invariant of the claim: strictly ordered ladders and an
uncrossed top of book. -/
def goodShape (b : OrderBook) : Prop :=
  ladderDesc b.bids ∧ ladderAsc b.asks ∧ notCrossed b

/-- Every book of the engine (any symbol, known or not) is well shaped. -/
def shapeOk (e : Engine) : Prop :=
  ∀ sym, goodShape (bookOf e sym)

/-- Total remaining quantity over both ladders of a book. -/
def totalRem (h : List (Nat × Order)) (b : OrderBook) : Int :=
  sideRem h b.bids + sideRem h b.asks

/-- The id of the resting (book-side) party of a trade emitted while
matching an aggressor of the given side. -/
def restingIdOf (side : Side) (t : Trade) : Nat :=
  if side = Side.buy then t.sellerId else t.buyerId

/-- The level prices of a ladder. -/
def pricesOf (ls : List PriceLevel) : List Int :=
  ls.map PriceLevel.price

/-- Every order resting at a level carries the level's price. -/
def pricesCoherent (h : List (Nat × Order)) (ls : List PriceLevel) : Prop :=
  ∀ lvl ∈ ls, ∀ i ∈ lvl.orders, (hfind h i).price = lvl.price

/-- Every order resting on a ladder has nonnegative remaining quantity. -/
def remNonneg (h : List (Nat × Order)) (ls : List PriceLevel) : Prop :=
  ∀ i ∈ levelIds ls, 0 ≤ remOf h i

/-- All ids used so far (allocated records and registered ids) are below the
id counter, so the next created order gets a fresh id. -/
def freshEngine (e : Engine) : Prop :=
  (∀ p ∈ e.heap, p.1 < e.nextId) ∧
  (∀ pb ∈ e.books, ∀ i ∈ pb.2.orders, i < e.nextId) ∧
  (∀ pb ∈ e.books, ∀ i ∈ bookIds pb.2, i < e.nextId)

/-- The registry maps each symbol to at most one book. -/
def keysOk (e : Engine) : Prop :=
  (e.books.map Prod.fst).Nodup

/-- Erase the (supply-drawn) timestamp of an order record. -/
def stripO (o : Order) : Order :=
  { o with timestamp := 0 }

/-- Erase supply-drawn data from the arena. -/
def stripH (h : List (Nat × Order)) : List (Nat × Order) :=
  h.map (fun p => (p.1, stripO p.2))

/-- Erase supply-drawn data from the engine state. -/
def stripE (e : Engine) : Engine :=
  { e with heap := stripH e.heap }

/-- The observable projection of a submission result: everything except the
supply-drawn trade ids and timestamps. -/
def resObs (r : OrderResult) :
    Nat × OStatus × Int × Int × List (Int × Int × Nat × Nat) :=
  (r.orderId, r.status, r.filledQuantity, r.remainingQuantity, r.trades.map tradeObs)

/-- The observable projection of a whole submission outcome. -/
def subObs (r : Except SubmitErr OrderResult) :
    Except SubmitErr (Nat × OStatus × Int × Int × List (Int × Int × Nat × Nat)) :=
  r.map resObs

/-- A concrete supply for closed test scenarios. -/
def s0 : Supply := ⟨fun n => n, fun n => n⟩

/-! ## Arena lemmas -/

theorem hlookup_hupdate_of_ne (h : List (Nat × Order)) (i j : Nat) (o : Order)
    (hne : j ≠ i) : hlookup (hupdate h i o) j = hlookup h j := by
  induction h with
  | nil => rfl
  | cons p t ih =>
    by_cases hp : p.1 = i
    · simp only [hupdate, if_pos hp, hlookup]
      rw [if_neg (by omega), if_neg (by rw [hp]; omega), ih]
    · simp only [hupdate, if_neg hp, hlookup]
      by_cases hj : p.1 = j
      · rw [if_pos hj, if_pos hj]
      · rw [if_neg hj, if_neg hj, ih]

theorem hlookup_hupdate_self (h : List (Nat × Order)) (i : Nat) (o : Order) :
    hlookup (hupdate h i o) i = (hlookup h i).map (fun _ => o) := by
  induction h with
  | nil => rfl
  | cons p t ih =>
    by_cases hp : p.1 = i
    · simp [hupdate, if_pos hp, hlookup, hp]
    · simp [hupdate, if_neg hp, hlookup, hp, ih]

theorem hlookup_append (h1 h2 : List (Nat × Order)) (j : Nat) :
    hlookup (h1 ++ h2) j =
      (match hlookup h1 j with
       | some o => some o
       | none => hlookup h2 j) := by
  induction h1 with
  | nil => simp [hlookup]
  | cons p t ih =>
    by_cases hp : p.1 = j
    · simp [hlookup, hp]
    · simp [hlookup, hp, ih]

theorem hlookup_hinsert_of_ne (h : List (Nat × Order)) (i j : Nat) (o : Order)
    (hne : j ≠ i) : hlookup (hinsert h i o) j = hlookup h j := by
  unfold hinsert
  by_cases hs : (hlookup h i).isSome
  · rw [if_pos hs, hlookup_hupdate_of_ne _ _ _ _ hne]
  · rw [if_neg hs, hlookup_append]
    have hj : hlookup [(i, o)] j = none := by
      simp only [hlookup]
      rw [if_neg (fun hc => hne hc.symm)]
    rw [hj]
    cases hlookup h j <;> rfl

theorem hlookup_hinsert_self (h : List (Nat × Order)) (i : Nat) (o : Order) :
    hlookup (hinsert h i o) i = some o := by
  unfold hinsert
  by_cases hs : (hlookup h i).isSome
  · rw [if_pos hs, hlookup_hupdate_self]
    obtain ⟨x, hx⟩ := Option.isSome_iff_exists.mp hs
    rw [hx]; rfl
  · rw [if_neg hs, hlookup_append]
    have hn : hlookup h i = none := Option.not_isSome_iff_eq_none.mp hs
    rw [hn]
    simp [hlookup]

theorem hfind_hupdate_price (h : List (Nat × Order)) (i : Nat) (o : Order)
    (hp : o.price = (hfind h i).price) (j : Nat) :
    (hfind (hupdate h i o) j).price = (hfind h j).price := by
  by_cases hj : j = i
  · subst hj
    unfold hfind at hp ⊢
    rw [hlookup_hupdate_self]
    cases hc : hlookup h j with
    | none => simp
    | some v =>
      rw [hc] at hp
      simpa using hp
  · unfold hfind
    rw [hlookup_hupdate_of_ne _ _ _ _ hj]

theorem hfind_hupdate_quantity (h : List (Nat × Order)) (i : Nat) (o : Order)
    (hp : o.quantity = (hfind h i).quantity) (j : Nat) :
    (hfind (hupdate h i o) j).quantity = (hfind h j).quantity := by
  by_cases hj : j = i
  · subst hj
    unfold hfind at hp ⊢
    rw [hlookup_hupdate_self]
    cases hc : hlookup h j with
    | none => simp
    | some v =>
      rw [hc] at hp
      simpa using hp
  · unfold hfind
    rw [hlookup_hupdate_of_ne _ _ _ _ hj]

/-! ## Trade list arithmetic -/

theorem sumQty_nil : sumQty [] = 0 := rfl

theorem sumQty_cons (t : Trade) (ts : List Trade) :
    sumQty (t :: ts) = t.quantity + sumQty ts := by
  simp [sumQty]

theorem sumQty_append (a b : List Trade) :
    sumQty (a ++ b) = sumQty a + sumQty b := by
  simp [sumQty]

/-! ## Inner matching loop (one price level) -/

theorem matchLevel_agg_core (s : Supply) (side : Side) (ords : List Nat) :
    ∀ tick h agg, (matchLevel s side tick h agg ords).agg =
      { agg with filledQuantity := (matchLevel s side tick h agg ords).agg.filledQuantity } := by
  induction ords with
  | nil => intro tick h agg; rfl
  | cons rid rest ih =>
    intro tick h agg
    simp only [matchLevel]
    split
    · split
      · rw [ih]
      · rfl
    · rfl

theorem matchLevel_trades_gain (s : Supply) (side : Side) (ords : List Nat) :
    ∀ tick h agg, sumQty (matchLevel s side tick h agg ords).trades =
      (matchLevel s side tick h agg ords).agg.filledQuantity - agg.filledQuantity := by
  induction ords with
  | nil => intro tick h agg; simp [matchLevel, sumQty]
  | cons rid rest ih =>
    intro tick h agg
    simp only [matchLevel]
    split
    · split
      · dsimp only
        rw [sumQty_cons, ih]
        dsimp only
        omega
      · dsimp only
        rw [sumQty_cons, sumQty_nil]
        dsimp only
        omega
    · dsimp only
      rw [sumQty_nil]
      omega

theorem matchLevel_fifo_ids (s : Supply) (side : Side) (ords : List Nat) :
    ∀ tick h agg, (matchLevel s side tick h agg ords).trades.map (restingIdOf side) =
      ords.take (matchLevel s side tick h agg ords).trades.length := by
  induction ords with
  | nil => intro tick h agg; rfl
  | cons rid rest ih =>
    intro tick h agg
    simp only [matchLevel]
    split
    · split
      · simp only [List.map_cons, List.length_cons, List.take_succ_cons]
        rw [ih]
        cases side <;> simp [restingIdOf]
      · cases side <;> simp [restingIdOf]
    · rfl

theorem matchLevel_heap_frame (s : Supply) (side : Side) (ords : List Nat) :
    ∀ tick h agg j,
      j ∉ ords.take (matchLevel s side tick h agg ords).trades.length →
      hlookup (matchLevel s side tick h agg ords).heap j = hlookup h j := by
  induction ords with
  | nil => intro tick h agg j _; rfl
  | cons rid rest ih =>
    intro tick h agg j
    simp only [matchLevel]
    split
    · split
      · dsimp only
        intro hj
        simp only [List.length_cons, List.take_succ_cons, List.mem_cons, not_or] at hj
        rw [ih _ _ _ _ hj.2, hlookup_hupdate_of_ne _ _ _ _ hj.1]
      · dsimp only
        intro hj
        simp only [List.length_cons, List.length_nil, List.take_succ_cons, List.take_zero,
          List.mem_cons, not_or, List.not_mem_nil] at hj
        exact hlookup_hupdate_of_ne _ _ _ _ hj.1
    · intro _
      rfl

theorem matchLevel_price_frame (s : Supply) (side : Side) (ords : List Nat) :
    ∀ tick h agg j,
      (hfind (matchLevel s side tick h agg ords).heap j).price = (hfind h j).price := by
  induction ords with
  | nil => intro tick h agg j; rfl
  | cons rid rest ih =>
    intro tick h agg j
    simp only [matchLevel]
    split
    · split
      · dsimp only
        rw [ih]
        refine hfind_hupdate_price _ _ _ ?_ j
        rfl
      · dsimp only
        refine hfind_hupdate_price _ _ _ ?_ j
        rfl
    · rfl

theorem matchLevel_quantity_frame (s : Supply) (side : Side) (ords : List Nat) :
    ∀ tick h agg j,
      (hfind (matchLevel s side tick h agg ords).heap j).quantity = (hfind h j).quantity := by
  induction ords with
  | nil => intro tick h agg j; rfl
  | cons rid rest ih =>
    intro tick h agg j
    simp only [matchLevel]
    split
    · split
      · dsimp only
        rw [ih]
        refine hfind_hupdate_quantity _ _ _ ?_ j
        rfl
      · dsimp only
        refine hfind_hupdate_quantity _ _ _ ?_ j
        rfl
    · rfl

theorem matchLevel_rest_full (s : Supply) (side : Side) (ords : List Nat) :
    ∀ tick h agg, (matchLevel s side tick h agg ords).rest ≠ [] →
      (matchLevel s side tick h agg ords).agg.quantity ≤
        (matchLevel s side tick h agg ords).agg.filledQuantity := by
  induction ords with
  | nil => intro tick h agg hne; exact absurd rfl hne
  | cons rid rest ih =>
    intro tick h agg
    simp only [matchLevel]
    split
    · split
      · dsimp only
        exact ih _ _ _
      · rename_i hlt hfull
        dsimp only
        intro _
        have hmin : min (agg.quantity - agg.filledQuantity)
            ((hfind h rid).quantity - (hfind h rid).filledQuantity) =
            agg.quantity - agg.filledQuantity ∨
            min (agg.quantity - agg.filledQuantity)
            ((hfind h rid).quantity - (hfind h rid).filledQuantity) =
            (hfind h rid).quantity - (hfind h rid).filledQuantity :=
          min_choice _ _
        rcases hmin with hmin | hmin
        · omega
        · exact absurd (by omega) hfull
    · rename_i hge
      dsimp only
      intro _
      omega

theorem remOf_congr (h1 h2 : List (Nat × Order)) (j : Nat)
    (he : hlookup h1 j = hlookup h2 j) : remOf h1 j = remOf h2 j := by
  unfold remOf hfind
  rw [he]

theorem map_remOf_congr (ids : List Nat) (h1 h2 : List (Nat × Order))
    (he : ∀ j ∈ ids, hlookup h1 j = hlookup h2 j) :
    ids.map (remOf h1) = ids.map (remOf h2) :=
  List.map_congr_left (fun j hj => remOf_congr h1 h2 j (he j hj))

theorem sum_remOf_nonneg (h : List (Nat × Order)) (ids : List Nat)
    (hn : ∀ j ∈ ids, 0 ≤ remOf h j) : 0 ≤ (ids.map (remOf h)).sum := by
  apply List.sum_nonneg
  intro x hx
  obtain ⟨j, hj, rfl⟩ := List.mem_map.mp hx
  exact hn j hj

theorem ne_of_mem_of_not_mem {rid : Nat} {rest : List Nat} (hrid : rid ∉ rest) :
    ∀ j ∈ rest, j ≠ rid := by
  intro j hj hc
  subst hc
  exact hrid hj

theorem hfind_hupdate_of_found (h : List (Nat × Order)) (i : Nat) (o v : Order)
    (hc : hlookup h i = some v) : hfind (hupdate h i o) i = o := by
  unfold hfind
  rw [hlookup_hupdate_self, hc]
  rfl

theorem matchLevel_conservation (s : Supply) (side : Side) (ords : List Nat) :
    ∀ tick h agg, ords.Nodup →
      ((matchLevel s side tick h agg ords).rest.map
        (remOf (matchLevel s side tick h agg ords).heap)).sum =
      (ords.map (remOf h)).sum - sumQty (matchLevel s side tick h agg ords).trades := by
  induction ords with
  | nil => intro tick h agg _; simp [matchLevel, sumQty]
  | cons rid rest ih =>
    intro tick h agg hnd
    obtain ⟨hrid, hndr⟩ := List.nodup_cons.mp hnd
    simp only [matchLevel]
    split
    · rename_i hguard
      split
      · rename_i hfull
        rw [sumQty_cons]
        have hmaps : rest.map (remOf (hupdate h rid
            { hfind h rid with
              filledQuantity := (hfind h rid).filledQuantity +
                min (agg.quantity - agg.filledQuantity)
                  ((hfind h rid).quantity - (hfind h rid).filledQuantity)
              status := OStatus.filled })) = rest.map (remOf h) := by
          apply map_remOf_congr
          intro j hj
          exact hlookup_hupdate_of_ne _ _ _ _ (ne_of_mem_of_not_mem hrid j hj)
        rw [ih _ _ _ hndr, hmaps]
        simp only [List.map_cons, List.sum_cons]
        have hBR : remOf h rid =
            (hfind h rid).quantity - (hfind h rid).filledQuantity := rfl
        omega
      · rename_i hfull
        rw [sumQty_cons, sumQty_nil]
        simp only [List.map_cons, List.sum_cons]
        have hmaps : rest.map (remOf (hupdate h rid
            { hfind h rid with
              filledQuantity := (hfind h rid).filledQuantity +
                min (agg.quantity - agg.filledQuantity)
                  ((hfind h rid).quantity - (hfind h rid).filledQuantity)
              status := OStatus.partialFill })) = rest.map (remOf h) := by
          apply map_remOf_congr
          intro j hj
          exact hlookup_hupdate_of_ne _ _ _ _ (ne_of_mem_of_not_mem hrid j hj)
        rw [hmaps]
        cases hc : hlookup h rid with
        | none =>
          exfalso
          apply hfull
          have hno : hfind h rid = noOrder := by unfold hfind; rw [hc]; rfl
          rw [hno]
          simp only [noOrder]
          omega
        | some v =>
          have hrem : remOf (hupdate h rid
              { hfind h rid with
                filledQuantity := (hfind h rid).filledQuantity +
                  min (agg.quantity - agg.filledQuantity)
                    ((hfind h rid).quantity - (hfind h rid).filledQuantity)
                status := OStatus.partialFill }) rid =
              remOf h rid - min (agg.quantity - agg.filledQuantity)
                ((hfind h rid).quantity - (hfind h rid).filledQuantity) := by
            unfold remOf
            rw [hfind_hupdate_of_found h rid _ v hc]
            have hBR : (hfind h rid).quantity -
                (hfind h rid).filledQuantity = remOf h rid := rfl
            dsimp only
            omega
          rw [hrem]
          have hBR : remOf h rid =
              (hfind h rid).quantity - (hfind h rid).filledQuantity := rfl
          omega
    · rw [sumQty_nil]
      simp

theorem matchLevel_fill_min (s : Supply) (side : Side) (ords : List Nat) :
    ∀ tick h agg, ords.Nodup → (∀ j ∈ ords, 0 ≤ remOf h j) →
      agg.filledQuantity ≤ agg.quantity →
      (matchLevel s side tick h agg ords).agg.filledQuantity =
        min agg.quantity (agg.filledQuantity + (ords.map (remOf h)).sum) := by
  induction ords with
  | nil =>
    intro tick h agg _ _ hle
    simp only [matchLevel, List.map_nil, List.sum_nil, add_zero]
    omega
  | cons rid rest ih =>
    intro tick h agg hnd hpos hle
    obtain ⟨hrid, hndr⟩ := List.nodup_cons.mp hnd
    have hrpos : 0 ≤ remOf h rid := hpos rid (List.mem_cons_self rid rest)
    have hsum : 0 ≤ (rest.map (remOf h)).sum :=
      sum_remOf_nonneg h rest (fun j hj => hpos j (List.mem_cons_of_mem rid hj))
    have hBR : remOf h rid =
        (hfind h rid).quantity - (hfind h rid).filledQuantity := rfl
    simp only [matchLevel]
    split
    · rename_i hguard
      split
      · rename_i hfull
        have hmaps : rest.map (remOf (hupdate h rid
            { hfind h rid with
              filledQuantity := (hfind h rid).filledQuantity +
                min (agg.quantity - agg.filledQuantity)
                  ((hfind h rid).quantity - (hfind h rid).filledQuantity)
              status := OStatus.filled })) = rest.map (remOf h) := by
          apply map_remOf_congr
          intro j hj
          exact hlookup_hupdate_of_ne _ _ _ _ (ne_of_mem_of_not_mem hrid j hj)
        rw [ih _ _ _ hndr
          (by
            intro j hj
            rw [remOf_congr _ h j
              (hlookup_hupdate_of_ne _ _ _ _ (ne_of_mem_of_not_mem hrid j hj))]
            exact hpos j (List.mem_cons_of_mem rid hj))
          (by
            have hml := min_le_left (agg.quantity - agg.filledQuantity)
              ((hfind h rid).quantity - (hfind h rid).filledQuantity)
            dsimp only
            omega)]
        rw [hmaps]
        simp only [List.map_cons, List.sum_cons]
        omega
      · rename_i hfull
        simp only [List.map_cons, List.sum_cons]
        have hchoice := min_choice (agg.quantity - agg.filledQuantity)
          ((hfind h rid).quantity - (hfind h rid).filledQuantity)
        have hAle := min_le_right (agg.quantity - agg.filledQuantity)
          ((hfind h rid).quantity - (hfind h rid).filledQuantity)
        rcases hchoice with hc | hc
        · omega
        · exact absurd (by omega) hfull
    · rename_i hguard
      simp only [List.map_cons, List.sum_cons]
      omega

theorem matchLevel_rest_drop (s : Supply) (side : Side) (ords : List Nat) :
    ∀ tick h agg, ∃ n,
      (matchLevel s side tick h agg ords).rest = ords.drop n := by
  induction ords with
  | nil => intro tick h agg; exact ⟨0, rfl⟩
  | cons rid rest ih =>
    intro tick h agg
    simp only [matchLevel]
    split
    · split
      · obtain ⟨n, hn⟩ := ih (tick + 1) _ _
        exact ⟨n + 1, by simpa using hn⟩
      · exact ⟨0, rfl⟩
    · exact ⟨0, rfl⟩


/-! ## Ladder-level congruence helpers -/

theorem sideRem_congr (ls : List PriceLevel) (h1 h2 : List (Nat × Order))
    (he : ∀ j ∈ levelIds ls, hlookup h1 j = hlookup h2 j) :
    sideRem h1 ls = sideRem h2 ls := by
  induction ls with
  | nil => rfl
  | cons lvl rest ih =>
    unfold sideRem levelRem
    simp only [List.map_cons, List.sum_cons]
    have h1' : lvl.orders.map (remOf h1) = lvl.orders.map (remOf h2) := by
      apply map_remOf_congr
      intro j hj
      exact he j (by simp [levelIds, hj])
    rw [h1']
    have h2' := ih (fun j hj => he j (by simp [levelIds]; right; exact hj))
    unfold sideRem levelRem at h2'
    rw [h2']

theorem sideRem_nonneg (h : List (Nat × Order)) (ls : List PriceLevel)
    (hn : ∀ j ∈ levelIds ls, 0 ≤ remOf h j) : 0 ≤ sideRem h ls := by
  induction ls with
  | nil => simp [sideRem]
  | cons lvl rest ih =>
    unfold sideRem levelRem
    simp only [List.map_cons, List.sum_cons]
    have hl : 0 ≤ (lvl.orders.map (remOf h)).sum :=
      sum_remOf_nonneg h lvl.orders (fun j hj => hn j (by simp [levelIds, hj]))
    have hr : 0 ≤ sideRem h rest :=
      ih (fun j hj => hn j (by simp [levelIds]; right; exact hj))
    unfold sideRem levelRem at hr
    omega

theorem pricesCoherent_congr (ls : List PriceLevel) (h1 h2 : List (Nat × Order))
    (he : ∀ j, (hfind h1 j).price = (hfind h2 j).price)
    (hc : pricesCoherent h2 ls) : pricesCoherent h1 ls := by
  intro lvl hlvl i hi
  rw [he i]
  exact hc lvl hlvl i hi

theorem sideRem_cons (h : List (Nat × Order)) (lvl : PriceLevel) (rest : List PriceLevel) :
    sideRem h (lvl :: rest) = levelRem h lvl + sideRem h rest := by
  unfold sideRem
  simp

/-! ## Outer matching loop (one ladder) -/

theorem matchSide_agg_core (s : Supply) (side : Side) (levels : List PriceLevel) :
    ∀ tick h agg, (matchSide s side tick h agg levels).agg =
      { agg with filledQuantity := (matchSide s side tick h agg levels).agg.filledQuantity } := by
  induction levels with
  | nil => intro tick h agg; rfl
  | cons lvl rest ih =>
    intro tick h agg
    simp only [matchSide]
    split
    · split
      · rfl
      · split
        · rw [ih]
          rw [matchLevel_agg_core s side lvl.orders tick h agg]
        · rw [matchLevel_agg_core s side lvl.orders tick h agg]
    · rfl

theorem matchSide_trades_gain (s : Supply) (side : Side) (levels : List PriceLevel) :
    ∀ tick h agg, sumQty (matchSide s side tick h agg levels).trades =
      (matchSide s side tick h agg levels).agg.filledQuantity - agg.filledQuantity := by
  induction levels with
  | nil => intro tick h agg; simp [matchSide, sumQty]
  | cons lvl rest ih =>
    intro tick h agg
    simp only [matchSide]
    split
    · split
      · simp [sumQty]
      · split
        · dsimp only
          rw [sumQty_append, ih, matchLevel_trades_gain]
          have hcore := matchLevel_agg_core s side lvl.orders tick h agg
          have : (matchLevel s side tick h agg lvl.orders).agg.filledQuantity =
              (matchLevel s side tick h agg lvl.orders).agg.filledQuantity := rfl
          omega
        · dsimp only
          rw [matchLevel_trades_gain]
    · simp [sumQty]

theorem matchSide_heap_frame (s : Supply) (side : Side) (levels : List PriceLevel) :
    ∀ tick h agg j, j ∉ levelIds levels →
      hlookup (matchSide s side tick h agg levels).heap j = hlookup h j := by
  induction levels with
  | nil => intro tick h agg j _; rfl
  | cons lvl rest ih =>
    intro tick h agg j hj
    have hj1 : j ∉ lvl.orders := fun hc => hj (by simp [levelIds, hc])
    have hj2 : j ∉ levelIds rest := fun hc => hj (by simp [levelIds]; right; exact hc)
    simp only [matchSide]
    split
    · split
      · rfl
      · split
        · dsimp only
          rw [ih _ _ _ _ hj2]
          exact matchLevel_heap_frame s side lvl.orders tick h agg j
            (fun hc => hj1 (List.take_subset _ _ hc))
        · dsimp only
          exact matchLevel_heap_frame s side lvl.orders tick h agg j
            (fun hc => hj1 (List.take_subset _ _ hc))
    · rfl

theorem matchSide_price_frame (s : Supply) (side : Side) (levels : List PriceLevel) :
    ∀ tick h agg j,
      (hfind (matchSide s side tick h agg levels).heap j).price = (hfind h j).price := by
  induction levels with
  | nil => intro tick h agg j; rfl
  | cons lvl rest ih =>
    intro tick h agg j
    simp only [matchSide]
    split
    · split
      · rfl
      · split
        · dsimp only
          rw [ih]
          exact matchLevel_price_frame s side lvl.orders tick h agg j
        · dsimp only
          exact matchLevel_price_frame s side lvl.orders tick h agg j
    · rfl

theorem matchSide_quantity_frame (s : Supply) (side : Side) (levels : List PriceLevel) :
    ∀ tick h agg j,
      (hfind (matchSide s side tick h agg levels).heap j).quantity = (hfind h j).quantity := by
  induction levels with
  | nil => intro tick h agg j; rfl
  | cons lvl rest ih =>
    intro tick h agg j
    simp only [matchSide]
    split
    · split
      · rfl
      · split
        · dsimp only
          rw [ih]
          exact matchLevel_quantity_frame s side lvl.orders tick h agg j
        · dsimp only
          exact matchLevel_quantity_frame s side lvl.orders tick h agg j
    · rfl

theorem matchSide_prices_drop (s : Supply) (side : Side) (levels : List PriceLevel) :
    ∀ tick h agg, ∃ n,
      pricesOf (matchSide s side tick h agg levels).levels = (pricesOf levels).drop n := by
  induction levels with
  | nil => intro tick h agg; exact ⟨0, rfl⟩
  | cons lvl rest ih =>
    intro tick h agg
    simp only [matchSide]
    split
    · split
      · exact ⟨0, rfl⟩
      · split
        · obtain ⟨n, hn⟩ := ih (matchLevel s side tick h agg lvl.orders).tick
            (matchLevel s side tick h agg lvl.orders).heap
            (matchLevel s side tick h agg lvl.orders).agg
          exact ⟨n + 1, by simpa [pricesOf] using hn⟩
        · exact ⟨0, by simp [pricesOf]⟩
    · exact ⟨0, rfl⟩

theorem matchSide_exit (s : Supply) (side : Side) (levels : List PriceLevel) :
    ∀ tick h agg,
      (matchSide s side tick h agg levels).levels = [] ∨
      (matchSide s side tick h agg levels).agg.quantity ≤
        (matchSide s side tick h agg levels).agg.filledQuantity ∨
      (∀ lvl ∈ (matchSide s side tick h agg levels).levels.head?, crossStop side agg lvl) := by
  induction levels with
  | nil => intro tick h agg; exact Or.inl rfl
  | cons lvl rest ih =>
    intro tick h agg
    simp only [matchSide]
    split
    · split
      · rename_i hguard hcross
        refine Or.inr (Or.inr ?_)
        intro l hl
        simp only [List.head?_cons, Option.mem_def, Option.some.injEq] at hl
        subst hl
        exact hcross
      · split
        · rename_i hguard hcross hempty
          rcases ih (matchLevel s side tick h agg lvl.orders).tick
              (matchLevel s side tick h agg lvl.orders).heap
              (matchLevel s side tick h agg lvl.orders).agg with h1 | h2 | h3
          · exact Or.inl h1
          · exact Or.inr (Or.inl h2)
          · refine Or.inr (Or.inr ?_)
            intro l hl
            have hcs := h3 l hl
            have hcore := matchLevel_agg_core s side lvl.orders tick h agg
            unfold crossStop at hcs ⊢
            have hot : (matchLevel s side tick h agg lvl.orders).agg.otype = agg.otype := by
              rw [hcore]
            have hpr : (matchLevel s side tick h agg lvl.orders).agg.price = agg.price := by
              rw [hcore]
            rw [hot, hpr] at hcs
            exact hcs
        · rename_i hguard hcross hempty
          refine Or.inr (Or.inl ?_)
          dsimp only
          apply matchLevel_rest_full
          intro hc
          rw [hc] at hempty
          simp at hempty
    · rename_i hguard
      refine Or.inr (Or.inl ?_)
      dsimp only
      omega

theorem matchSide_conservation (s : Supply) (side : Side) (levels : List PriceLevel) :
    ∀ tick h agg, (levelIds levels).Nodup →
      sideRem (matchSide s side tick h agg levels).heap
          (matchSide s side tick h agg levels).levels =
        sideRem h levels - sumQty (matchSide s side tick h agg levels).trades := by
  induction levels with
  | nil => intro tick h agg _; simp [matchSide, sideRem, sumQty]
  | cons lvl rest ih =>
    intro tick h agg hnd
    have hnd' : (lvl.orders ++ levelIds rest).Nodup := hnd
    rw [List.nodup_append] at hnd'
    obtain ⟨hnd1, hnd2, hdisj⟩ := hnd'
    simp only [matchSide]
    split
    · split
      · dsimp only
        rw [sumQty_nil]
        omega
      · split
        · rename_i hemp
          dsimp only
          rw [sumQty_append]
          have hinner := matchLevel_conservation s side lvl.orders tick h agg hnd1
          rw [List.isEmpty_iff.mp hemp] at hinner
          simp only [List.map_nil, List.sum_nil] at hinner
          have hframe : sideRem (matchLevel s side tick h agg lvl.orders).heap rest =
              sideRem h rest := by
            apply sideRem_congr
            intro j hj
            exact matchLevel_heap_frame s side lvl.orders tick h agg j
              (fun hc => hdisj (List.take_subset _ _ hc) hj)
          rw [ih _ _ _ hnd2, hframe, sideRem_cons]
          unfold levelRem
          omega
        · rename_i hemp
          dsimp only
          rw [sideRem_cons, sideRem_cons]
          have hinner := matchLevel_conservation s side lvl.orders tick h agg hnd1
          have hframe : sideRem (matchLevel s side tick h agg lvl.orders).heap rest =
              sideRem h rest := by
            apply sideRem_congr
            intro j hj
            exact matchLevel_heap_frame s side lvl.orders tick h agg j
              (fun hc => hdisj (List.take_subset _ _ hc) hj)
          rw [hframe]
          unfold levelRem
          dsimp only
          omega
    · dsimp only
      rw [sumQty_nil]
      omega

theorem matchSide_fill_min (s : Supply) (side : Side) (levels : List PriceLevel) :
    ∀ tick h agg, (levelIds levels).Nodup →
      (∀ j ∈ levelIds levels, 0 ≤ remOf h j) →
      agg.filledQuantity ≤ agg.quantity → agg.otype = OType.market →
      (matchSide s side tick h agg levels).agg.filledQuantity =
        min agg.quantity (agg.filledQuantity + sideRem h levels) := by
  induction levels with
  | nil =>
    intro tick h agg _ _ hle _
    simp only [matchSide, sideRem, List.map_nil, List.sum_nil, add_zero]
    omega
  | cons lvl rest ih =>
    intro tick h agg hnd hpos hle hmkt
    have hnd' : (lvl.orders ++ levelIds rest).Nodup := hnd
    rw [List.nodup_append] at hnd'
    obtain ⟨hnd1, hnd2, hdisj⟩ := hnd'
    have hpos1 : ∀ j ∈ lvl.orders, 0 ≤ remOf h j :=
      fun j hj => hpos j (by simp [levelIds, hj])
    have hpos2 : ∀ j ∈ levelIds rest, 0 ≤ remOf h j :=
      fun j hj => hpos j (by simp [levelIds]; right; exact hj)
    have hLnn : 0 ≤ levelRem h lvl := sum_remOf_nonneg h lvl.orders hpos1
    have hSnn : 0 ≤ sideRem h rest := sideRem_nonneg h rest hpos2
    simp only [matchSide]
    split
    · split
      · rename_i hguard hcross
        exfalso
        unfold crossStop at hcross
        rw [hmkt] at hcross
        exact absurd hcross.1 (by intro hc; cases hc)
      · rename_i hguard hcross
        have hinner := matchLevel_fill_min s side lvl.orders tick h agg hnd1 hpos1 hle
        have hcore := matchLevel_agg_core s side lvl.orders tick h agg
        have hq : (matchLevel s side tick h agg lvl.orders).agg.quantity = agg.quantity := by
          rw [hcore]
        have hot : (matchLevel s side tick h agg lvl.orders).agg.otype = agg.otype := by
          rw [hcore]
        split
        · rename_i hemp
          dsimp only
          have hframe : ∀ j ∈ levelIds rest,
              hlookup (matchLevel s side tick h agg lvl.orders).heap j = hlookup h j :=
            fun j hj => matchLevel_heap_frame s side lvl.orders tick h agg j
              (fun hc => hdisj (List.take_subset _ _ hc) hj)
          have hrec := ih (matchLevel s side tick h agg lvl.orders).tick
            (matchLevel s side tick h agg lvl.orders).heap
            (matchLevel s side tick h agg lvl.orders).agg
            hnd2
            (by
              intro j hj
              rw [remOf_congr _ h j (hframe j hj)]
              exact hpos2 j hj)
            (by rw [hinner, hq]; exact min_le_left _ _)
            (by rw [hot]; exact hmkt)
          rw [hrec, hq, hinner]
          have hSfr : sideRem (matchLevel s side tick h agg lvl.orders).heap rest =
              sideRem h rest := sideRem_congr rest _ h hframe
          rw [hSfr, sideRem_cons]
          unfold levelRem at hLnn ⊢
          omega
        · rename_i hemp
          dsimp only
          have hfull : (matchLevel s side tick h agg lvl.orders).agg.quantity ≤
              (matchLevel s side tick h agg lvl.orders).agg.filledQuantity := by
            apply matchLevel_rest_full
            intro hc
            rw [hc] at hemp
            simp at hemp
          rw [hq] at hfull
          rw [sideRem_cons]
          unfold levelRem at hLnn hinner ⊢
          omega
    · rename_i hguard
      dsimp only
      have := sideRem_cons h lvl rest
      unfold levelRem at this hLnn
      omega

theorem matchLevel_trade_resting (s : Supply) (side : Side) (ords : List Nat) :
    ∀ tick h agg, ∀ t ∈ (matchLevel s side tick h agg ords).trades,
      t.price = (hfind h (restingIdOf side t)).price := by
  induction ords with
  | nil => intro tick h agg t ht; simp [matchLevel] at ht
  | cons rid rest ih =>
    intro tick h agg t ht
    simp only [matchLevel] at ht
    split at ht
    · rename_i hguard
      split at ht
      · rename_i hfull
        simp only [List.mem_cons] at ht
        rcases ht with ht | ht
        · subst ht
          cases side <;> simp [restingIdOf]
        · have := ih _ _ _ t ht
          rw [this]
          refine hfind_hupdate_price _ _ _ ?_ _
          rfl
      · rename_i hfull
        simp only [List.mem_cons, List.not_mem_nil, or_false] at ht
        subst ht
        cases side <;> simp [restingIdOf]
    · simp at ht

theorem matchSide_trade_resting (s : Supply) (side : Side) (levels : List PriceLevel) :
    ∀ tick h agg, ∀ t ∈ (matchSide s side tick h agg levels).trades,
      t.price = (hfind h (restingIdOf side t)).price := by
  induction levels with
  | nil => intro tick h agg t ht; simp [matchSide] at ht
  | cons lvl rest ih =>
    intro tick h agg t ht
    simp only [matchSide] at ht
    split at ht
    · split at ht
      · simp at ht
      · split at ht
        · dsimp only at ht
          rw [List.mem_append] at ht
          rcases ht with ht | ht
          · exact matchLevel_trade_resting s side lvl.orders tick h agg t ht
          · have := ih _ _ _ t ht
            rw [this]
            exact matchLevel_price_frame s side lvl.orders tick h agg _
        · dsimp only at ht
          exact matchLevel_trade_resting s side lvl.orders tick h agg t ht
    · simp at ht

theorem matchLevel_trade_mem (s : Supply) (side : Side) (ords : List Nat) :
    ∀ tick h agg, ∀ t ∈ (matchLevel s side tick h agg ords).trades,
      restingIdOf side t ∈ ords := by
  intro tick h agg t ht
  have hmap := matchLevel_fifo_ids s side ords tick h agg
  have : restingIdOf side t ∈
      (matchLevel s side tick h agg ords).trades.map (restingIdOf side) :=
    List.mem_map.mpr ⟨t, ht, rfl⟩
  rw [hmap] at this
  exact List.take_subset _ _ this

theorem matchSide_trade_le (s : Supply) (side : Side) (levels : List PriceLevel) :
    ∀ tick h agg, pricesCoherent h levels → agg.otype = OType.limit →
      ∀ t ∈ (matchSide s side tick h agg levels).trades,
        (if side = Side.buy then t.price ≤ agg.price else agg.price ≤ t.price) := by
  induction levels with
  | nil => intro tick h agg _ _ t ht; simp [matchSide] at ht
  | cons lvl rest ih =>
    intro tick h agg hcoh hlim t ht
    simp only [matchSide] at ht
    split at ht
    · rename_i hguard
      split at ht
      · simp at ht
      · rename_i hcross
        unfold crossStop at hcross
        rw [hlim] at hcross
        simp only [true_and] at hcross
        have hbound : if side = Side.buy then lvl.price ≤ agg.price
            else agg.price ≤ lvl.price := by
          cases side
          · rw [if_pos rfl] at hcross ⊢
            omega
          · rw [if_neg (by decide)] at hcross ⊢
            omega
        split at ht
        · dsimp only at ht
          rw [List.mem_append] at ht
          rcases ht with ht | ht
          · have hp := matchLevel_trade_resting s side lvl.orders tick h agg t ht
            have hmem := matchLevel_trade_mem s side lvl.orders tick h agg t ht
            have hcp := hcoh lvl (List.mem_cons_self lvl rest) _ hmem
            rw [hp, hcp]
            exact hbound
          · have hcore := matchLevel_agg_core s side lvl.orders tick h agg
            have hot : (matchLevel s side tick h agg lvl.orders).agg.otype = agg.otype := by
              rw [hcore]
            have hpr : (matchLevel s side tick h agg lvl.orders).agg.price = agg.price := by
              rw [hcore]
            have hcoh' : pricesCoherent (matchLevel s side tick h agg lvl.orders).heap rest := by
              apply pricesCoherent_congr rest _ h
              · exact matchLevel_price_frame s side lvl.orders tick h agg
              · intro l hl i hi
                exact hcoh l (List.mem_cons_of_mem lvl hl) i hi
            have := ih _ _ _ hcoh' (by rw [hot]; exact hlim) t ht
            rw [hpr] at this
            exact this
        · dsimp only at ht
          have hp := matchLevel_trade_resting s side lvl.orders tick h agg t ht
          have hmem := matchLevel_trade_mem s side lvl.orders tick h agg t ht
          have hcp := hcoh lvl (List.mem_cons_self lvl rest) _ hmem
          rw [hp, hcp]
          exact hbound
    · simp at ht

theorem matchSide_noCross (s : Supply) (side : Side) (tick : Nat)
    (h : List (Nat × Order)) (agg : Order) (levels : List PriceLevel)
    (hc : ∀ lvl ∈ levels.head?, crossStop side agg lvl) :
    matchSide s side tick h agg levels = ⟨tick, h, agg, levels, []⟩ := by
  cases levels with
  | nil => rfl
  | cons lvl rest =>
    simp only [matchSide]
    split
    · split
      · rfl
      · rename_i hguard hcross
        exact absurd (hc lvl (by simp)) hcross
    · rfl


/-! ## Ladder insertion and removal -/

theorem appendAtPrice_none (p : Int) (i : Nat) (ls : List PriceLevel)
    (hn : appendAtPrice p i ls = none) : ∀ lvl ∈ ls, lvl.price ≠ p := by
  induction ls with
  | nil => intro lvl h; simp at h
  | cons lvl rest ih =>
    intro l hl
    simp only [appendAtPrice] at hn
    split at hn
    · cases hn
    · rename_i hp
      rcases List.mem_cons.mp hl with rfl | hl'
      · exact hp
      · have : appendAtPrice p i rest = none := by
          cases hc : appendAtPrice p i rest
          · rfl
          · rw [hc] at hn; cases hn
        exact ih this l hl'

theorem appendAtPrice_some_prices (p : Int) (i : Nat) :
    ∀ ls ls', appendAtPrice p i ls = some ls' → pricesOf ls' = pricesOf ls := by
  intro ls
  induction ls with
  | nil => intro ls' h; cases h
  | cons lvl rest ih =>
    intro ls' h
    simp only [appendAtPrice] at h
    split at h
    · cases h
      simp [pricesOf]
    · cases hc : appendAtPrice p i rest with
      | none => rw [hc] at h; cases h
      | some ls2 =>
        rw [hc] at h
        simp only [Option.map_some', Option.some.injEq] at h
        subst h
        simp only [pricesOf, List.map_cons]
        rw [show List.map PriceLevel.price ls2 = pricesOf ls2 from rfl,
          show List.map PriceLevel.price rest = pricesOf rest from rfl, ih ls2 hc]

theorem appendAtPrice_some_sideRem (h : List (Nat × Order)) (p : Int) (i : Nat) :
    ∀ ls ls', appendAtPrice p i ls = some ls' →
      sideRem h ls' = sideRem h ls + remOf h i := by
  intro ls
  induction ls with
  | nil => intro ls' hh; cases hh
  | cons lvl rest ih =>
    intro ls' hh
    simp only [appendAtPrice] at hh
    split at hh
    · cases hh
      rw [sideRem_cons, sideRem_cons]
      unfold levelRem
      dsimp only
      rw [List.map_append, List.sum_append]
      simp only [List.map_cons, List.map_nil, List.sum_cons, List.sum_nil]
      omega
    · cases hc : appendAtPrice p i rest with
      | none => rw [hc] at hh; cases hh
      | some ls2 =>
        rw [hc] at hh
        simp only [Option.map_some', Option.some.injEq] at hh
        subst hh
        rw [sideRem_cons, sideRem_cons, ih ls2 hc]
        omega

theorem ladderDesc_iff_prices (ls : List PriceLevel) :
    ladderDesc ls ↔ List.Pairwise (fun a b : Int => b < a) (pricesOf ls) := by
  unfold ladderDesc pricesOf
  rw [List.pairwise_map]

theorem ladderAsc_iff_prices (ls : List PriceLevel) :
    ladderAsc ls ↔ List.Pairwise (fun a b : Int => a < b) (pricesOf ls) := by
  unfold ladderAsc pricesOf
  rw [List.pairwise_map]

theorem ladderDesc_prices_nodup (ls : List PriceLevel) (hd : ladderDesc ls) :
    (pricesOf ls).Nodup :=
  ((ladderDesc_iff_prices ls).mp hd).imp (fun hab => by omega)

theorem ladderAsc_prices_nodup (ls : List PriceLevel) (hd : ladderAsc ls) :
    (pricesOf ls).Nodup :=
  ((ladderAsc_iff_prices ls).mp hd).imp (fun hab => by omega)

theorem pairwise_bidGE_strict (ls : List PriceLevel)
    (hs : List.Pairwise bidGE ls) (hnd : (pricesOf ls).Nodup) : ladderDesc ls := by
  unfold ladderDesc
  have hne : List.Pairwise (fun l1 l2 : PriceLevel => l1.price ≠ l2.price) ls := by
    rw [← List.pairwise_map (f := PriceLevel.price)]
    exact hnd
  exact (hs.and hne).imp (fun hab => by
    obtain ⟨h1, h2⟩ := hab
    unfold bidGE at h1
    omega)

theorem pairwise_askLE_strict (ls : List PriceLevel)
    (hs : List.Pairwise askLE ls) (hnd : (pricesOf ls).Nodup) : ladderAsc ls := by
  unfold ladderAsc
  have hne : List.Pairwise (fun l1 l2 : PriceLevel => l1.price ≠ l2.price) ls := by
    rw [← List.pairwise_map (f := PriceLevel.price)]
    exact hnd
  exact (hs.and hne).imp (fun hab => by
    obtain ⟨h1, h2⟩ := hab
    unfold askLE at h1
    omega)

theorem addToBids_desc (bids : List PriceLevel) (o : Order)
    (hd : ladderDesc bids) : ladderDesc (addToBids bids o) := by
  unfold addToBids
  cases hc : appendAtPrice o.price o.id bids with
  | some ls =>
    rw [ladderDesc_iff_prices, appendAtPrice_some_prices _ _ _ _ hc,
      ← ladderDesc_iff_prices]
    exact hd
  | none =>
    apply pairwise_bidGE_strict
    · exact List.sorted_insertionSort bidGE _
    · have hperm : List.Perm
          (List.insertionSort bidGE (bids ++ [⟨o.price, [o.id]⟩]))
          (bids ++ [⟨o.price, [o.id]⟩]) := List.perm_insertionSort bidGE _
      have hperm2 : List.Perm (pricesOf (List.insertionSort bidGE (bids ++ [⟨o.price, [o.id]⟩])))
          (pricesOf (bids ++ [⟨o.price, [o.id]⟩])) := hperm.map PriceLevel.price
      rw [hperm2.nodup_iff]
      unfold pricesOf
      rw [List.map_append]
      rw [List.nodup_append]
      refine ⟨ladderDesc_prices_nodup bids hd, by simp, ?_⟩
      intro a ha hb
      simp only [List.map_cons, List.map_nil, List.mem_cons, List.not_mem_nil,
        or_false] at hb
      subst hb
      obtain ⟨lvl, hlvl, hlp⟩ := List.mem_map.mp ha
      exact appendAtPrice_none _ _ _ hc lvl hlvl hlp

theorem addToAsks_asc (asks : List PriceLevel) (o : Order)
    (hd : ladderAsc asks) : ladderAsc (addToAsks asks o) := by
  unfold addToAsks
  cases hc : appendAtPrice o.price o.id asks with
  | some ls =>
    rw [ladderAsc_iff_prices, appendAtPrice_some_prices _ _ _ _ hc,
      ← ladderAsc_iff_prices]
    exact hd
  | none =>
    apply pairwise_askLE_strict
    · exact List.sorted_insertionSort askLE _
    · have hperm : List.Perm
          (List.insertionSort askLE (asks ++ [⟨o.price, [o.id]⟩]))
          (asks ++ [⟨o.price, [o.id]⟩]) := List.perm_insertionSort askLE _
      have hperm2 : List.Perm (pricesOf (List.insertionSort askLE (asks ++ [⟨o.price, [o.id]⟩])))
          (pricesOf (asks ++ [⟨o.price, [o.id]⟩])) := hperm.map PriceLevel.price
      rw [hperm2.nodup_iff]
      unfold pricesOf
      rw [List.map_append]
      rw [List.nodup_append]
      refine ⟨ladderAsc_prices_nodup asks hd, by simp, ?_⟩
      intro a ha hb
      simp only [List.map_cons, List.map_nil, List.mem_cons, List.not_mem_nil,
        or_false] at hb
      subst hb
      obtain ⟨lvl, hlvl, hlp⟩ := List.mem_map.mp ha
      exact appendAtPrice_none _ _ _ hc lvl hlvl hlp

theorem addToBids_mem (bids : List PriceLevel) (o : Order) (lvl : PriceLevel)
    (hm : lvl ∈ addToBids bids o) :
    lvl.price ∈ pricesOf bids ∨ lvl.price = o.price := by
  unfold addToBids at hm
  cases hc : appendAtPrice o.price o.id bids with
  | some ls =>
    rw [hc] at hm
    left
    rw [← appendAtPrice_some_prices _ _ _ _ hc]
    exact List.mem_map.mpr ⟨lvl, hm, rfl⟩
  | none =>
    rw [hc] at hm
    rw [List.mem_insertionSort] at hm
    rcases List.mem_append.mp hm with hm' | hm'
    · exact Or.inl (List.mem_map.mpr ⟨lvl, hm', rfl⟩)
    · right
      simp only [List.mem_cons, List.not_mem_nil, or_false] at hm'
      subst hm'
      rfl

theorem addToAsks_mem (asks : List PriceLevel) (o : Order) (lvl : PriceLevel)
    (hm : lvl ∈ addToAsks asks o) :
    lvl.price ∈ pricesOf asks ∨ lvl.price = o.price := by
  unfold addToAsks at hm
  cases hc : appendAtPrice o.price o.id asks with
  | some ls =>
    rw [hc] at hm
    left
    rw [← appendAtPrice_some_prices _ _ _ _ hc]
    exact List.mem_map.mpr ⟨lvl, hm, rfl⟩
  | none =>
    rw [hc] at hm
    rw [List.mem_insertionSort] at hm
    rcases List.mem_append.mp hm with hm' | hm'
    · exact Or.inl (List.mem_map.mpr ⟨lvl, hm', rfl⟩)
    · right
      simp only [List.mem_cons, List.not_mem_nil, or_false] at hm'
      subst hm'
      rfl

theorem addToBids_sideRem (h : List (Nat × Order)) (bids : List PriceLevel) (o : Order) :
    sideRem h (addToBids bids o) = sideRem h bids + remOf h o.id := by
  unfold addToBids
  cases hc : appendAtPrice o.price o.id bids with
  | some ls => exact appendAtPrice_some_sideRem h _ _ _ _ hc
  | none =>
    have hperm : List.Perm
        (List.insertionSort bidGE (bids ++ [⟨o.price, [o.id]⟩]))
        (bids ++ [⟨o.price, [o.id]⟩]) := List.perm_insertionSort bidGE _
    have hsum : sideRem h (List.insertionSort bidGE (bids ++ [⟨o.price, [o.id]⟩])) =
        sideRem h (bids ++ [⟨o.price, [o.id]⟩]) := by
      unfold sideRem
      exact (hperm.map (levelRem h)).sum_eq
    rw [hsum]
    unfold sideRem
    rw [List.map_append, List.sum_append]
    unfold levelRem
    simp

theorem addToAsks_sideRem (h : List (Nat × Order)) (asks : List PriceLevel) (o : Order) :
    sideRem h (addToAsks asks o) = sideRem h asks + remOf h o.id := by
  unfold addToAsks
  cases hc : appendAtPrice o.price o.id asks with
  | some ls => exact appendAtPrice_some_sideRem h _ _ _ _ hc
  | none =>
    have hperm : List.Perm
        (List.insertionSort askLE (asks ++ [⟨o.price, [o.id]⟩]))
        (asks ++ [⟨o.price, [o.id]⟩]) := List.perm_insertionSort askLE _
    have hsum : sideRem h (List.insertionSort askLE (asks ++ [⟨o.price, [o.id]⟩])) =
        sideRem h (asks ++ [⟨o.price, [o.id]⟩]) := by
      unfold sideRem
      exact (hperm.map (levelRem h)).sum_eq
    rw [hsum]
    unfold sideRem
    rw [List.map_append, List.sum_append]
    unfold levelRem
    simp

theorem removeIdFromLevels_prices (p : Int) (i : Nat) (ls : List PriceLevel) :
    List.Sublist (pricesOf (removeIdFromLevels p i ls)) (pricesOf ls) := by
  induction ls with
  | nil => simp [removeIdFromLevels, pricesOf]
  | cons lvl rest ih =>
    simp only [removeIdFromLevels]
    split
    · split
      · simp only [pricesOf, List.map_cons]
        exact List.sublist_cons_self _ _
      · simp only [pricesOf, List.map_cons]
        exact List.Sublist.refl _
    · simp only [pricesOf, List.map_cons]
      exact List.Sublist.cons₂ _ ih

theorem removeIdFromLevels_desc (p : Int) (i : Nat) (ls : List PriceLevel)
    (hd : ladderDesc ls) : ladderDesc (removeIdFromLevels p i ls) := by
  rw [ladderDesc_iff_prices]
  exact ((ladderDesc_iff_prices ls).mp hd).sublist (removeIdFromLevels_prices p i ls)

theorem removeIdFromLevels_asc (p : Int) (i : Nat) (ls : List PriceLevel)
    (hd : ladderAsc ls) : ladderAsc (removeIdFromLevels p i ls) := by
  rw [ladderAsc_iff_prices]
  exact ((ladderAsc_iff_prices ls).mp hd).sublist (removeIdFromLevels_prices p i ls)

theorem ladderDesc_head_max (ls : List PriceLevel) (hd : ladderDesc ls) :
    ∀ hb ∈ ls.head?, ∀ lvl ∈ ls, lvl.price ≤ hb.price := by
  intro hb hhb lvl hlvl
  cases ls with
  | nil => simp at hhb
  | cons a t =>
    simp only [List.head?_cons, Option.mem_def, Option.some.injEq] at hhb
    subst hhb
    rcases List.mem_cons.mp hlvl with rfl | hlvl'
    · exact le_refl _
    · have := (List.pairwise_cons.mp hd).1 lvl hlvl'
      omega

theorem ladderAsc_head_min (ls : List PriceLevel) (hd : ladderAsc ls) :
    ∀ ha ∈ ls.head?, ∀ lvl ∈ ls, ha.price ≤ lvl.price := by
  intro ha hha lvl hlvl
  cases ls with
  | nil => simp at hha
  | cons a t =>
    simp only [List.head?_cons, Option.mem_def, Option.some.injEq] at hha
    subst hha
    rcases List.mem_cons.mp hlvl with rfl | hlvl'
    · exact le_refl _
    · have := (List.pairwise_cons.mp hd).1 lvl hlvl'
      omega

theorem head_mem_of_mem_head? {ls : List PriceLevel} {lvl : PriceLevel}
    (hh : lvl ∈ ls.head?) : lvl ∈ ls := by
  cases ls with
  | nil => simp at hh
  | cons a t =>
    simp only [List.head?_cons, Option.mem_def, Option.some.injEq] at hh
    subst hh
    exact List.mem_cons_self _ _


/-! ## Registry plumbing -/

theorem findBook_setBook_self (books : List (String × OrderBook)) (sym : String)
    (b : OrderBook) (hs : (findBook books sym).isSome) :
    findBook (setBook books sym b) sym = some b := by
  induction books with
  | nil => simp [findBook] at hs
  | cons p t ih =>
    simp only [findBook, setBook] at hs ⊢
    by_cases hp : p.1 = sym
    · rw [if_pos hp]
      simp [findBook]
    · rw [if_neg hp]
      simp only [findBook, if_neg hp]
      rw [if_neg hp] at hs
      exact ih hs

theorem findBook_setBook_ne (books : List (String × OrderBook)) (sym sym' : String)
    (b : OrderBook) (hne : sym' ≠ sym) :
    findBook (setBook books sym b) sym' = findBook books sym' := by
  induction books with
  | nil => rfl
  | cons p t ih =>
    simp only [findBook, setBook]
    by_cases hp : p.1 = sym
    · rw [if_pos hp]
      simp only [findBook]
      rw [if_neg (fun hc => hne hc.symm), if_neg (fun hc => hne (hc.symm.trans hp)), ih]
    · rw [if_neg hp]
      simp only [findBook]
      by_cases hq : p.1 = sym'
      · rw [if_pos hq, if_pos hq]
      · rw [if_neg hq, if_neg hq, ih]

theorem findBook_append_of_none (books : List (String × OrderBook)) (sym : String)
    (b : OrderBook) (hn : findBook books sym = none) :
    findBook (books ++ [(sym, b)]) sym = some b := by
  induction books with
  | nil => simp [findBook]
  | cons p t ih =>
    simp only [findBook] at hn ⊢
    by_cases hp : p.1 = sym
    · rw [if_pos hp] at hn; cases hn
    · rw [if_neg hp] at hn ⊢
      exact ih hn

theorem findBook_getOrCreate_self (books : List (String × OrderBook)) (sym : String) :
    findBook (getOrCreateBooks books sym) sym =
      some ((findBook books sym).getD (emptyBook sym)) := by
  unfold getOrCreateBooks
  cases hc : findBook books sym with
  | some b => simp [hc]
  | none =>
    simp only [Option.isSome_none, Option.getD_none]
    rw [if_neg (by simp)]
    exact findBook_append_of_none books sym _ hc

theorem findBook_append_ne (books : List (String × OrderBook)) (sym sym' : String)
    (b : OrderBook) (hne : sym' ≠ sym) :
    findBook (books ++ [(sym, b)]) sym' = findBook books sym' := by
  induction books with
  | nil =>
    simp only [List.nil_append, findBook]
    rw [if_neg (fun hc => hne hc.symm)]
  | cons p t ih =>
    simp only [List.cons_append, findBook]
    by_cases hp : p.1 = sym'
    · rw [if_pos hp, if_pos hp]
    · rw [if_neg hp, if_neg hp]
      exact ih

theorem findBook_getOrCreate_ne (books : List (String × OrderBook)) (sym sym' : String)
    (hne : sym' ≠ sym) :
    findBook (getOrCreateBooks books sym) sym' = findBook books sym' := by
  unfold getOrCreateBooks
  split
  · rfl
  · exact findBook_append_ne books sym sym' _ hne

theorem setBook_keys (books : List (String × OrderBook)) (sym : String) (b : OrderBook) :
    (setBook books sym b).map Prod.fst = books.map Prod.fst := by
  induction books with
  | nil => rfl
  | cons p t ih =>
    simp only [setBook]
    by_cases hp : p.1 = sym
    · rw [if_pos hp]
      simp only [List.map_cons, ih]
      rw [hp]
    · rw [if_neg hp]
      simp only [List.map_cons, ih]

theorem findBook_none_iff (books : List (String × OrderBook)) (sym : String) :
    findBook books sym = none ↔ sym ∉ books.map Prod.fst := by
  induction books with
  | nil => simp [findBook]
  | cons p t ih =>
    simp only [findBook, List.map_cons, List.mem_cons]
    by_cases hp : p.1 = sym
    · rw [if_pos hp]
      simp [hp]
    · rw [if_neg hp]
      rw [ih]
      constructor
      · intro hn hc
        rcases hc with hc | hc
        · exact hp hc.symm
        · exact hn hc
      · intro hn hc
        exact hn (Or.inr hc)

theorem findBook_of_mem (books : List (String × OrderBook)) (sym : String)
    (b : OrderBook) (hk : (books.map Prod.fst).Nodup)
    (hm : (sym, b) ∈ books) : findBook books sym = some b := by
  induction books with
  | nil => simp at hm
  | cons p t ih =>
    simp only [List.map_cons, List.nodup_cons] at hk
    rcases List.mem_cons.mp hm with rfl | hm'
    · simp [findBook]
    · simp only [findBook]
      by_cases hp : p.1 = sym
      · exfalso
        apply hk.1
        rw [hp]
        exact List.mem_map.mpr ⟨(sym, b), hm', rfl⟩
      · rw [if_neg hp]
        exact ih hk.2 hm'

theorem findBookWith_some_mem (books : List (String × OrderBook)) (i : Nat)
    (p : String × OrderBook) (hf : findBookWith books i = some p) :
    p ∈ books ∧ i ∈ p.2.orders := by
  induction books with
  | nil => cases hf
  | cons q t ih =>
    simp only [findBookWith] at hf
    split at hf
    · cases hf
      exact ⟨List.mem_cons_self _ _, by assumption⟩
    · obtain ⟨h1, h2⟩ := ih hf
      exact ⟨List.mem_cons_of_mem _ h1, h2⟩

theorem findBookWith_isSome (books : List (String × OrderBook)) (i : Nat)
    (p : String × OrderBook) (hp : p ∈ books) (hi : i ∈ p.2.orders) :
    (findBookWith books i).isSome = true := by
  induction books with
  | nil => simp at hp
  | cons q t ih =>
    simp only [findBookWith]
    split
    · rfl
    · rename_i hq
      rcases List.mem_cons.mp hp with rfl | hp'
      · exact absurd hi hq
      · exact ih hp'

theorem findBookWith_none (books : List (String × OrderBook)) (i : Nat)
    (hn : ∀ p ∈ books, i ∉ p.2.orders) : findBookWith books i = none := by
  induction books with
  | nil => rfl
  | cons q t ih =>
    simp only [findBookWith]
    rw [if_neg (hn q (List.mem_cons_self _ _))]
    exact ih (fun p hp => hn p (List.mem_cons_of_mem _ hp))

/-! ## No-op update lemmas -/

theorem hupdate_self_eq (h : List (Nat × Order)) (i : Nat) (o : Order)
    (hall : ∀ p ∈ h, p.1 = i → p.2 = o) : hupdate h i o = h := by
  induction h with
  | nil => rfl
  | cons p t ih =>
    simp only [hupdate]
    by_cases hp : p.1 = i
    · rw [if_pos hp]
      have := hall p (List.mem_cons_self _ _) hp
      rw [ih (fun q hq hqi => hall q (List.mem_cons_of_mem _ hq) hqi)]
      rw [← this, ← hp]
    · rw [if_neg hp]
      rw [ih (fun q hq hqi => hall q (List.mem_cons_of_mem _ hq) hqi)]

theorem removeFirstId_id (i : Nat) (l : List Nat) (hn : i ∉ l) :
    removeFirstId i l = l := by
  induction l with
  | nil => rfl
  | cons x xs ih =>
    simp only [removeFirstId]
    rw [if_neg (fun hc => hn (by rw [hc]; exact List.mem_cons_self _ _))]
    rw [ih (fun hc => hn (List.mem_cons_of_mem _ hc))]

theorem removeIdFromLevels_id (p : Int) (i : Nat) (ls : List PriceLevel)
    (hn : i ∉ levelIds ls) (hne : ∀ lvl ∈ ls, lvl.orders ≠ []) :
    removeIdFromLevels p i ls = ls := by
  induction ls with
  | nil => rfl
  | cons lvl rest ih =>
    have hn1 : i ∉ lvl.orders := fun hc => hn (by simp [levelIds, hc])
    have hn2 : i ∉ levelIds rest := fun hc => hn (by simp [levelIds]; right; exact hc)
    simp only [removeIdFromLevels]
    split
    · rw [removeFirstId_id i lvl.orders hn1]
      rw [if_neg (by
        simp only [List.isEmpty_iff]
        exact hne lvl (List.mem_cons_self _ _))]
    · rw [ih hn2 (fun l hl => hne l (List.mem_cons_of_mem _ hl))]

theorem setBook_self (books : List (String × OrderBook)) (sym : String) (b : OrderBook)
    (hall : ∀ p ∈ books, p.1 = sym → p.2 = b) : setBook books sym b = books := by
  induction books with
  | nil => rfl
  | cons p t ih =>
    simp only [setBook]
    by_cases hp : p.1 = sym
    · rw [if_pos hp]
      have := hall p (List.mem_cons_self _ _) hp
      rw [ih (fun q hq hqs => hall q (List.mem_cons_of_mem _ hq) hqs)]
      rw [← this, ← hp]
    · rw [if_neg hp]
      rw [ih (fun q hq hqs => hall q (List.mem_cons_of_mem _ hq) hqs)]

/-! ## Fill bound and level-subset lemmas -/

theorem matchLevel_fill_le (s : Supply) (side : Side) (ords : List Nat) :
    ∀ tick h agg, agg.filledQuantity ≤ agg.quantity →
      (matchLevel s side tick h agg ords).agg.filledQuantity ≤
        (matchLevel s side tick h agg ords).agg.quantity := by
  induction ords with
  | nil => intro tick h agg hle; exact hle
  | cons rid rest ih =>
    intro tick h agg hle
    simp only [matchLevel]
    split
    · split
      · apply ih
        dsimp only
        have := min_le_left (agg.quantity - agg.filledQuantity)
          ((hfind h rid).quantity - (hfind h rid).filledQuantity)
        omega
      · dsimp only
        have := min_le_left (agg.quantity - agg.filledQuantity)
          ((hfind h rid).quantity - (hfind h rid).filledQuantity)
        omega
    · exact hle

theorem matchSide_fill_le (s : Supply) (side : Side) (levels : List PriceLevel) :
    ∀ tick h agg, agg.filledQuantity ≤ agg.quantity →
      (matchSide s side tick h agg levels).agg.filledQuantity ≤
        (matchSide s side tick h agg levels).agg.quantity := by
  induction levels with
  | nil => intro tick h agg hle; exact hle
  | cons lvl rest ih =>
    intro tick h agg hle
    simp only [matchSide]
    split
    · split
      · exact hle
      · split
        · dsimp only
          apply ih
          exact matchLevel_fill_le s side lvl.orders tick h agg hle
        · dsimp only
          exact matchLevel_fill_le s side lvl.orders tick h agg hle
    · exact hle

theorem matchSide_levels_subset (s : Supply) (side : Side) (levels : List PriceLevel) :
    ∀ tick h agg j, j ∈ levelIds (matchSide s side tick h agg levels).levels →
      j ∈ levelIds levels := by
  induction levels with
  | nil => intro tick h agg j hj; exact hj
  | cons lvl rest ih =>
    intro tick h agg j hj
    simp only [matchSide] at hj
    split at hj
    · split at hj
      · exact hj
      · split at hj
        · dsimp only at hj
          have := ih _ _ _ j hj
          simp only [levelIds, List.mem_append]
          right
          exact this
        · dsimp only at hj
          simp only [levelIds, List.mem_append] at hj ⊢
          rcases hj with hj | hj
          · left
            obtain ⟨n, hn⟩ := matchLevel_rest_drop s side lvl.orders tick h agg
            rw [hn] at hj
            exact List.mem_of_mem_drop hj
          · right
            exact hj
    · exact hj

theorem hlookup_isSome_hupdate (h : List (Nat × Order)) (i : Nat) (o : Order) (j : Nat) :
    (hlookup (hupdate h i o) j).isSome = (hlookup h j).isSome := by
  by_cases hj : j = i
  · subst hj
    rw [hlookup_hupdate_self]
    cases hlookup h j <;> rfl
  · rw [hlookup_hupdate_of_ne _ _ _ _ hj]

theorem matchLevel_heap_frame_out (s : Supply) (side : Side) (ords : List Nat)
    (tick : Nat) (h : List (Nat × Order)) (agg : Order) (j : Nat) (hj : j ∉ ords) :
    hlookup (matchLevel s side tick h agg ords).heap j = hlookup h j :=
  matchLevel_heap_frame s side ords tick h agg j
    (fun hc => hj (List.take_subset _ _ hc))

theorem mem_take_cons {j x : Nat} {l : List Nat} {n : Nat}
    (hj : j ∈ (x :: l).take n) : j = x ∨ j ∈ l.take (n - 1) := by
  cases n with
  | zero => simp at hj
  | succ m =>
    rw [List.take_succ_cons] at hj
    rcases List.mem_cons.mp hj with rfl | hj'
    · exact Or.inl rfl
    · right
      simpa using hj'

theorem matchLevel_consumed_filled (s : Supply) (side : Side) (ords : List Nat) :
    ∀ tick h agg, ords.Nodup → (∀ j ∈ ords, (hlookup h j).isSome = true) →
      ∀ j ∈ ords.take ((matchLevel s side tick h agg ords).trades.length - 1),
        (hfind (matchLevel s side tick h agg ords).heap j).filledQuantity =
          (hfind (matchLevel s side tick h agg ords).heap j).quantity ∧
        (hfind (matchLevel s side tick h agg ords).heap j).status = OStatus.filled := by
  induction ords with
  | nil => intro tick h agg _ _ j hj; simp [matchLevel] at hj
  | cons rid rest ih =>
    intro tick h agg hnd hpres
    obtain ⟨hrid, hndr⟩ := List.nodup_cons.mp hnd
    simp only [matchLevel]
    split
    · rename_i hguard
      split
      · rename_i hfull
        dsimp only
        intro j hj
        rw [List.length_cons, Nat.add_sub_cancel] at hj
        rcases mem_take_cons hj with rfl | hj'
        · obtain ⟨v, hv⟩ := Option.isSome_iff_exists.mp
            (hpres j (List.mem_cons_self _ _))
          have hv' : hfind h j = v := by unfold hfind; rw [hv]; rfl
          rw [hv'] at hfull
          unfold hfind
          rw [matchLevel_heap_frame_out s side rest (tick + 1) _ _ j hrid,
            hlookup_hupdate_self, hv]
          simp only [Option.map_some', Option.getD_some]
          refine ⟨?_, ?_⟩
          · dsimp only
            omega
          · trivial
        · refine ih (tick + 1) _ _ hndr ?_ j hj'
          intro x hx
          rw [hlookup_isSome_hupdate]
          exact hpres x (List.mem_cons_of_mem _ hx)
      · rename_i hfull
        dsimp only
        intro j hj
        simp at hj
    · rename_i hguard
      intro j hj
      simp at hj

/-! ## Shape preservation -/

theorem goodShape_emptyBook (sym : String) : goodShape (emptyBook sym) := by
  refine ⟨List.Pairwise.nil, List.Pairwise.nil, ?_⟩
  intro lb hlb la hla
  simp [emptyBook] at hlb

theorem goodShape_asks_drop (b : OrderBook) (asks' : List PriceLevel) (n : Nat)
    (hg : goodShape b) (hp : pricesOf asks' = (pricesOf b.asks).drop n) :
    goodShape { b with asks := asks' } := by
  obtain ⟨hd, ha, hx⟩ := hg
  refine ⟨hd, ?_, ?_⟩
  · show ladderAsc asks'
    rw [ladderAsc_iff_prices, hp]
    exact ((ladderAsc_iff_prices b.asks).mp ha).drop
  · intro lb hlb la hla
    have hla' : la ∈ asks' := head_mem_of_mem_head? hla
    have hpm : la.price ∈ pricesOf asks' := List.mem_map.mpr ⟨la, hla', rfl⟩
    rw [hp] at hpm
    have hpm' : la.price ∈ pricesOf b.asks := List.mem_of_mem_drop hpm
    obtain ⟨lvl0, hlvl0, hp0⟩ := List.mem_map.mp hpm'
    cases hbk : b.asks with
    | nil => rw [hbk] at hlvl0; simp at hlvl0
    | cons a0 t =>
      have hmin := ladderAsc_head_min b.asks ha a0 (by rw [hbk]; rfl) lvl0 hlvl0
      have hcr := hx lb hlb a0 (by rw [hbk]; rfl)
      omega

theorem goodShape_bids_drop (b : OrderBook) (bids' : List PriceLevel) (n : Nat)
    (hg : goodShape b) (hp : pricesOf bids' = (pricesOf b.bids).drop n) :
    goodShape { b with bids := bids' } := by
  obtain ⟨hd, ha, hx⟩ := hg
  refine ⟨?_, ha, ?_⟩
  · show ladderDesc bids'
    rw [ladderDesc_iff_prices, hp]
    exact ((ladderDesc_iff_prices b.bids).mp hd).drop
  · intro lb hlb la hla
    have hlb' : lb ∈ bids' := head_mem_of_mem_head? hlb
    have hpm : lb.price ∈ pricesOf bids' := List.mem_map.mpr ⟨lb, hlb', rfl⟩
    rw [hp] at hpm
    have hpm' : lb.price ∈ pricesOf b.bids := List.mem_of_mem_drop hpm
    obtain ⟨lvl0, hlvl0, hp0⟩ := List.mem_map.mp hpm'
    cases hbk : b.bids with
    | nil => rw [hbk] at hlvl0; simp at hlvl0
    | cons b0 t =>
      have hmax := ladderDesc_head_max b.bids hd b0 (by rw [hbk]; rfl) lvl0 hlvl0
      have hcr := hx b0 (by rw [hbk]; rfl) la hla
      omega

theorem goodShape_insert_bid (b : OrderBook) (o : Order) (hg : goodShape b)
    (hno : ∀ la ∈ b.asks.head?, o.price < la.price) :
    goodShape { b with bids := addToBids b.bids o } := by
  obtain ⟨hd, ha, hx⟩ := hg
  refine ⟨addToBids_desc _ _ hd, ha, ?_⟩
  intro lb hlb la hla
  have hlt := hno la hla
  have hmem := addToBids_mem b.bids o lb (head_mem_of_mem_head? hlb)
  rcases hmem with hmem | hmem
  · obtain ⟨lvl0, hlvl0, hp0⟩ := List.mem_map.mp hmem
    cases hbk : b.bids with
    | nil => rw [hbk] at hlvl0; simp at hlvl0
    | cons b0 t =>
      have hmax := ladderDesc_head_max b.bids hd b0 (by rw [hbk]; rfl) lvl0 hlvl0
      have hcr := hx b0 (by rw [hbk]; rfl) la hla
      omega
  · omega

theorem goodShape_insert_ask (b : OrderBook) (o : Order) (hg : goodShape b)
    (hno : ∀ lb ∈ b.bids.head?, lb.price < o.price) :
    goodShape { b with asks := addToAsks b.asks o } := by
  obtain ⟨hd, ha, hx⟩ := hg
  refine ⟨hd, addToAsks_asc _ _ ha, ?_⟩
  intro lb hlb la hla
  have hlt := hno lb hlb
  have hmem := addToAsks_mem b.asks o la (head_mem_of_mem_head? hla)
  rcases hmem with hmem | hmem
  · obtain ⟨lvl0, hlvl0, hp0⟩ := List.mem_map.mp hmem
    cases hbk : b.asks with
    | nil => rw [hbk] at hlvl0; simp at hlvl0
    | cons a0 t =>
      have hmin := ladderAsc_head_min b.asks ha a0 (by rw [hbk]; rfl) lvl0 hlvl0
      have hcr := hx lb hlb a0 (by rw [hbk]; rfl)
      omega
  · omega

theorem goodShape_remove (b : OrderBook) (o : Order) (hg : goodShape b) :
    goodShape (removeOrderBook b o) := by
  obtain ⟨hd, ha, hx⟩ := hg
  unfold removeOrderBook
  split
  · refine ⟨removeIdFromLevels_desc _ _ _ hd, ha, ?_⟩
    intro lb hlb la hla
    have hlb' : lb ∈ removeIdFromLevels o.price o.id b.bids := head_mem_of_mem_head? hlb
    have hpm : lb.price ∈ pricesOf (removeIdFromLevels o.price o.id b.bids) :=
      List.mem_map.mpr ⟨lb, hlb', rfl⟩
    have hpm' : lb.price ∈ pricesOf b.bids :=
      (removeIdFromLevels_prices o.price o.id b.bids).mem hpm
    obtain ⟨lvl0, hlvl0, hp0⟩ := List.mem_map.mp hpm'
    cases hbk : b.bids with
    | nil => rw [hbk] at hlvl0; simp at hlvl0
    | cons b0 t =>
      have hmax := ladderDesc_head_max b.bids hd b0 (by rw [hbk]; rfl) lvl0 hlvl0
      have hcr := hx b0 (by rw [hbk]; rfl) la hla
      omega
  · refine ⟨hd, removeIdFromLevels_asc _ _ _ ha, ?_⟩
    intro lb hlb la hla
    have hla' : la ∈ removeIdFromLevels o.price o.id b.asks := head_mem_of_mem_head? hla
    have hpm : la.price ∈ pricesOf (removeIdFromLevels o.price o.id b.asks) :=
      List.mem_map.mpr ⟨la, hla', rfl⟩
    have hpm' : la.price ∈ pricesOf b.asks :=
      (removeIdFromLevels_prices o.price o.id b.asks).mem hpm
    obtain ⟨lvl0, hlvl0, hp0⟩ := List.mem_map.mp hpm'
    cases hbk : b.asks with
    | nil => rw [hbk] at hlvl0; simp at hlvl0
    | cons a0 t =>
      have hmin := ladderAsc_head_min b.asks ha a0 (by rw [hbk]; rfl) lvl0 hlvl0
      have hcr := hx lb hlb a0 (by rw [hbk]; rfl)
      omega

theorem getOrCreate_keys_nodup (books : List (String × OrderBook)) (sym : String)
    (hk : (books.map Prod.fst).Nodup) :
    ((getOrCreateBooks books sym).map Prod.fst).Nodup := by
  unfold getOrCreateBooks
  split
  · exact hk
  · rename_i hn
    rw [List.map_append]
    rw [List.nodup_append]
    refine ⟨hk, by simp, ?_⟩
    intro a ha hb
    simp only [List.map_cons, List.map_nil, List.mem_cons, List.not_mem_nil, or_false] at hb
    cases hb
    have hnone : findBook books sym = none := by
      cases hc : findBook books sym
      · rfl
      · rw [hc] at hn; simp at hn
    exact (findBook_none_iff books sym).mp hnone ha

/-! ## Characterization of the submission paths -/

theorem bookOf_getOrCreate (e : Engine) (sym : String) :
    (findBook (getOrCreateBooks e.books sym) sym).getD (emptyBook sym) = bookOf e sym := by
  rw [findBook_getOrCreate_self]
  rfl

theorem submitOrder_invalidQuantity (s : Supply) (e : Engine) (sym : String)
    (side : Side) (otype : OType) (price quantity : Int) (hq : quantity ≤ 0) :
    submitOrder s e sym side otype price quantity =
      (e, Except.error SubmitErr.invalidQuantity) := by
  unfold submitOrder
  rw [if_pos hq]

theorem submitOrder_invalidPrice (s : Supply) (e : Engine) (sym : String)
    (side : Side) (otype : OType) (price quantity : Int) (hq : ¬ quantity ≤ 0)
    (hp : otype = OType.limit ∧ price ≤ 0) :
    submitOrder s e sym side otype price quantity =
      (e, Except.error SubmitErr.invalidPrice) := by
  unfold submitOrder
  rw [if_neg hq, if_pos hp]

theorem submitOrder_marketErr (s : Supply) (e : Engine) (sym : String)
    (side : Side) (otype : OType) (price quantity : Int)
    (hq : ¬ quantity ≤ 0) (hp : ¬ (otype = OType.limit ∧ price ≤ 0))
    (hmkt : otype = OType.market ∧
      sideRem e.heap (opposingOf (bookOf e sym) side) < quantity) :
    submitOrder s e sym side otype price quantity =
      ({ e with
         books := getOrCreateBooks e.books sym
         nextId := e.nextId + 1
         tick := e.tick + 1 },
       Except.error SubmitErr.insufficientLiquidity) := by
  unfold submitOrder
  rw [if_neg hq, if_neg hp]
  simp only [bookOf_getOrCreate]
  rw [if_pos hmkt]

theorem submitOrder_rest (s : Supply) (e : Engine) (sym : String)
    (side : Side) (otype : OType) (price quantity : Int)
    (hq : ¬ quantity ≤ 0) (hp : ¬ (otype = OType.limit ∧ price ≤ 0))
    (hmkt : ¬ (otype = OType.market ∧
      sideRem e.heap (opposingOf (bookOf e sym) side) < quantity))
    (hrest : (matchSide s side (e.tick + 1) e.heap
        (newOrder s e.tick e.nextId sym side otype price quantity)
        (opposingOf (bookOf e sym) side)).agg.filledQuantity <
      (matchSide s side (e.tick + 1) e.heap
        (newOrder s e.tick e.nextId sym side otype price quantity)
        (opposingOf (bookOf e sym) side)).agg.quantity ∧ otype = OType.limit) :
    submitOrder s e sym side otype price quantity =
      ({ heap := hinsert (matchSide s side (e.tick + 1) e.heap
            (newOrder s e.tick e.nextId sym side otype price quantity)
            (opposingOf (bookOf e sym) side)).heap
            (matchSide s side (e.tick + 1) e.heap
              (newOrder s e.tick e.nextId sym side otype price quantity)
              (opposingOf (bookOf e sym) side)).agg.id
            (matchSide s side (e.tick + 1) e.heap
              (newOrder s e.tick e.nextId sym side otype price quantity)
              (opposingOf (bookOf e sym) side)).agg
         books := setBook (getOrCreateBooks e.books sym) sym
            (addOrderBook (setOpposing (bookOf e sym) side
              (matchSide s side (e.tick + 1) e.heap
                (newOrder s e.tick e.nextId sym side otype price quantity)
                (opposingOf (bookOf e sym) side)).levels)
              (matchSide s side (e.tick + 1) e.heap
                (newOrder s e.tick e.nextId sym side otype price quantity)
                (opposingOf (bookOf e sym) side)).agg)
         nextId := e.nextId + 1
         tick := (matchSide s side (e.tick + 1) e.heap
            (newOrder s e.tick e.nextId sym side otype price quantity)
            (opposingOf (bookOf e sym) side)).tick },
       Except.ok
         ⟨(matchSide s side (e.tick + 1) e.heap
             (newOrder s e.tick e.nextId sym side otype price quantity)
             (opposingOf (bookOf e sym) side)).agg.id,
          (if 0 < (matchSide s side (e.tick + 1) e.heap
              (newOrder s e.tick e.nextId sym side otype price quantity)
              (opposingOf (bookOf e sym) side)).agg.filledQuantity
           then OStatus.partialFill else OStatus.accepted),
          (matchSide s side (e.tick + 1) e.heap
            (newOrder s e.tick e.nextId sym side otype price quantity)
            (opposingOf (bookOf e sym) side)).agg.filledQuantity,
          (matchSide s side (e.tick + 1) e.heap
            (newOrder s e.tick e.nextId sym side otype price quantity)
            (opposingOf (bookOf e sym) side)).agg.quantity -
          (matchSide s side (e.tick + 1) e.heap
            (newOrder s e.tick e.nextId sym side otype price quantity)
            (opposingOf (bookOf e sym) side)).agg.filledQuantity,
          (matchSide s side (e.tick + 1) e.heap
            (newOrder s e.tick e.nextId sym side otype price quantity)
            (opposingOf (bookOf e sym) side)).trades⟩) := by
  unfold submitOrder
  rw [if_neg hq, if_neg hp]
  simp only [bookOf_getOrCreate]
  rw [if_neg hmkt, if_pos hrest]

theorem submitOrder_full (s : Supply) (e : Engine) (sym : String)
    (side : Side) (otype : OType) (price quantity : Int)
    (hq : ¬ quantity ≤ 0) (hp : ¬ (otype = OType.limit ∧ price ≤ 0))
    (hmkt : ¬ (otype = OType.market ∧
      sideRem e.heap (opposingOf (bookOf e sym) side) < quantity))
    (hrest : ¬ ((matchSide s side (e.tick + 1) e.heap
        (newOrder s e.tick e.nextId sym side otype price quantity)
        (opposingOf (bookOf e sym) side)).agg.filledQuantity <
      (matchSide s side (e.tick + 1) e.heap
        (newOrder s e.tick e.nextId sym side otype price quantity)
        (opposingOf (bookOf e sym) side)).agg.quantity ∧ otype = OType.limit)) :
    submitOrder s e sym side otype price quantity =
      ({ heap := (matchSide s side (e.tick + 1) e.heap
            (newOrder s e.tick e.nextId sym side otype price quantity)
            (opposingOf (bookOf e sym) side)).heap
         books := setBook (getOrCreateBooks e.books sym) sym
            (setOpposing (bookOf e sym) side
              (matchSide s side (e.tick + 1) e.heap
                (newOrder s e.tick e.nextId sym side otype price quantity)
                (opposingOf (bookOf e sym) side)).levels)
         nextId := e.nextId + 1
         tick := (matchSide s side (e.tick + 1) e.heap
            (newOrder s e.tick e.nextId sym side otype price quantity)
            (opposingOf (bookOf e sym) side)).tick },
       Except.ok
         ⟨(matchSide s side (e.tick + 1) e.heap
             (newOrder s e.tick e.nextId sym side otype price quantity)
             (opposingOf (bookOf e sym) side)).agg.id,
          (if (matchSide s side (e.tick + 1) e.heap
              (newOrder s e.tick e.nextId sym side otype price quantity)
              (opposingOf (bookOf e sym) side)).agg.filledQuantity =
             (matchSide s side (e.tick + 1) e.heap
               (newOrder s e.tick e.nextId sym side otype price quantity)
               (opposingOf (bookOf e sym) side)).agg.quantity
           then OStatus.filled
           else (matchSide s side (e.tick + 1) e.heap
             (newOrder s e.tick e.nextId sym side otype price quantity)
             (opposingOf (bookOf e sym) side)).agg.status),
          (matchSide s side (e.tick + 1) e.heap
            (newOrder s e.tick e.nextId sym side otype price quantity)
            (opposingOf (bookOf e sym) side)).agg.filledQuantity,
          0,
          (matchSide s side (e.tick + 1) e.heap
            (newOrder s e.tick e.nextId sym side otype price quantity)
            (opposingOf (bookOf e sym) side)).trades⟩) := by
  unfold submitOrder
  rw [if_neg hq, if_neg hp]
  simp only [bookOf_getOrCreate]
  rw [if_neg hmkt, if_neg hrest]

/-! ## Books evolution across operations -/

theorem submitOrder_books_cases (s : Supply) (e : Engine) (sym : String)
    (side : Side) (otype : OType) (price quantity : Int) :
    (submitOrder s e sym side otype price quantity).1.books = e.books ∨
    (submitOrder s e sym side otype price quantity).1.books =
      getOrCreateBooks e.books sym ∨
    ∃ b', (submitOrder s e sym side otype price quantity).1.books =
      setBook (getOrCreateBooks e.books sym) sym b' := by
  by_cases hq : quantity ≤ 0
  · rw [submitOrder_invalidQuantity s e sym side otype price quantity hq]
    exact Or.inl rfl
  · by_cases hp : otype = OType.limit ∧ price ≤ 0
    · rw [submitOrder_invalidPrice s e sym side otype price quantity hq hp]
      exact Or.inl rfl
    · by_cases hmkt : otype = OType.market ∧
        sideRem e.heap (opposingOf (bookOf e sym) side) < quantity
      · rw [submitOrder_marketErr s e sym side otype price quantity hq hp hmkt]
        exact Or.inr (Or.inl rfl)
      · by_cases hrest : (matchSide s side (e.tick + 1) e.heap (newOrder s e.tick e.nextId sym side otype price quantity) (opposingOf (bookOf e sym) side)).agg.filledQuantity < (matchSide s side (e.tick + 1) e.heap (newOrder s e.tick e.nextId sym side otype price quantity) (opposingOf (bookOf e sym) side)).agg.quantity ∧ otype = OType.limit
        · rw [submitOrder_rest s e sym side otype price quantity hq hp hmkt hrest]
          exact Or.inr (Or.inr ⟨_, rfl⟩)
        · rw [submitOrder_full s e sym side otype price quantity hq hp hmkt hrest]
          exact Or.inr (Or.inr ⟨_, rfl⟩)

theorem keysOk_applyOp (e : Engine) (op : Op) (hk : keysOk e) :
    keysOk (applyOp e op) := by
  cases op with
  | sub s sym side otype price quantity =>
    show keysOk (submitOrder s e sym side otype price quantity).1
    rcases submitOrder_books_cases s e sym side otype price quantity with hb | hb | ⟨b2, hb⟩
    · unfold keysOk
      rw [hb]
      exact hk
    · unfold keysOk
      rw [hb]
      exact getOrCreate_keys_nodup _ _ hk
    · unfold keysOk
      rw [hb, setBook_keys]
      exact getOrCreate_keys_nodup _ _ hk
  | cancel i =>
    show keysOk (cancelOrder e i).1
    simp only [cancelOrder]
    split
    · exact hk
    · split
      · exact hk
      · unfold keysOk
        dsimp only
        rw [setBook_keys]
        exact hk

theorem getOrCreate_orders_mono (books : List (String × OrderBook)) (sym : String)
    (q : String × OrderBook) (hq : q ∈ books) : q ∈ getOrCreateBooks books sym := by
  unfold getOrCreateBooks
  split
  · exact hq
  · exact List.mem_append_left _ hq

theorem setBook_mem_self (books : List (String × OrderBook)) (sym : String)
    (b : OrderBook) (p : String × OrderBook) (hp : p ∈ books) (hs : p.1 = sym) :
    (sym, b) ∈ setBook books sym b := by
  induction books with
  | nil => cases hp
  | cons q t ih =>
    simp only [setBook]
    rcases List.mem_cons.mp hp with rfl | hp2
    · rw [if_pos hs]
      exact List.mem_cons_self _ _
    · by_cases hq : q.1 = sym
      · rw [if_pos hq]
        exact List.mem_cons_self _ _
      · rw [if_neg hq]
        exact List.mem_cons_of_mem _ (ih hp2)

theorem setBook_mem_ne (books : List (String × OrderBook)) (sym : String)
    (b : OrderBook) (q : String × OrderBook) (hq : q ∈ books) (hne : q.1 ≠ sym) :
    q ∈ setBook books sym b := by
  induction books with
  | nil => cases hq
  | cons p t ih =>
    simp only [setBook]
    rcases List.mem_cons.mp hq with rfl | hq2
    · rw [if_neg hne]
      exact List.mem_cons_self _ _
    · by_cases hp : p.1 = sym
      · rw [if_pos hp]
        exact List.mem_cons_of_mem _ (ih hq2)
      · rw [if_neg hp]
        exact List.mem_cons_of_mem _ (ih hq2)

/-! ## GetOrder persistence -/

theorem getOrder_isSome_iff (e : Engine) (i : Nat) :
    (getOrder e i).isSome = true ↔ ∃ p ∈ e.books, i ∈ p.2.orders := by
  unfold getOrder
  constructor
  · intro hs
    cases hc : findBookWith e.books i with
    | none => rw [hc] at hs; simp at hs
    | some p =>
      obtain ⟨h1, h2⟩ := findBookWith_some_mem e.books i p hc
      exact ⟨p, h1, h2⟩
  · intro hex
    obtain ⟨p, hp, hi⟩ := hex
    cases hc : findBookWith e.books i with
    | none =>
      have hsm := findBookWith_isSome e.books i p hp hi
      rw [hc] at hsm
      simp at hsm
    | some q => simp

theorem addOrderBook_orders_mono (b : OrderBook) (o : Order) (i : Nat)
    (hi : i ∈ b.orders) : i ∈ (addOrderBook b o).orders := by
  unfold addOrderBook
  dsimp only
  split
  · show i ∈ (if o.id ∈ b.orders then b.orders else b.orders ++ [o.id])
    split
    · exact hi
    · exact List.mem_append_left _ hi
  · show i ∈ (if o.id ∈ b.orders then b.orders else b.orders ++ [o.id])
    split
    · exact hi
    · exact List.mem_append_left _ hi

theorem setOpposing_orders (b : OrderBook) (side : Side) (levels : List PriceLevel) :
    (setOpposing b side levels).orders = b.orders := by
  unfold setOpposing
  split
  · rfl
  · rfl

theorem removeOrderBook_orders (b : OrderBook) (o : Order) :
    (removeOrderBook b o).orders = b.orders := by
  unfold removeOrderBook
  split
  · rfl
  · rfl

theorem getOrder_isSome_submit (s : Supply) (e : Engine) (sym : String)
    (side : Side) (otype : OType) (price quantity : Int) (i : Nat) (hk : keysOk e)
    (hs : (getOrder e i).isSome = true) :
    (getOrder (submitOrder s e sym side otype price quantity).1 i).isSome = true := by
  obtain ⟨p, hp, hi⟩ := (getOrder_isSome_iff e i).mp hs
  rw [getOrder_isSome_iff]
  by_cases hps : p.1 = sym
  · -- the entry keyed sym may get replaced, but the replacement book's
    -- id index extends the old one on every submission path
    have hfb : findBook e.books sym = some p.2 := by
      apply findBook_of_mem e.books sym p.2 hk
      rw [← hps]
      exact hp
    have hbof : bookOf e sym = p.2 := by
      unfold bookOf
      rw [hfb]
      rfl
    have hmemp : p ∈ getOrCreateBooks e.books sym := getOrCreate_orders_mono e.books sym p hp
    by_cases hq : quantity ≤ 0
    · rw [submitOrder_invalidQuantity s e sym side otype price quantity hq]
      exact ⟨p, hp, hi⟩
    · by_cases hpv : otype = OType.limit ∧ price ≤ 0
      · rw [submitOrder_invalidPrice s e sym side otype price quantity hq hpv]
        exact ⟨p, hp, hi⟩
      · by_cases hmkt : otype = OType.market ∧
          sideRem e.heap (opposingOf (bookOf e sym) side) < quantity
        · rw [submitOrder_marketErr s e sym side otype price quantity hq hpv hmkt]
          exact ⟨p, hmemp, hi⟩
        · by_cases hrest : (matchSide s side (e.tick + 1) e.heap (newOrder s e.tick e.nextId sym side otype price quantity) (opposingOf (bookOf e sym) side)).agg.filledQuantity < (matchSide s side (e.tick + 1) e.heap (newOrder s e.tick e.nextId sym side otype price quantity) (opposingOf (bookOf e sym) side)).agg.quantity ∧ otype = OType.limit
          · rw [submitOrder_rest s e sym side otype price quantity hq hpv hmkt hrest]
            refine ⟨(sym, addOrderBook (setOpposing (bookOf e sym) side (matchSide s side (e.tick + 1) e.heap (newOrder s e.tick e.nextId sym side otype price quantity) (opposingOf (bookOf e sym) side)).levels) (matchSide s side (e.tick + 1) e.heap (newOrder s e.tick e.nextId sym side otype price quantity) (opposingOf (bookOf e sym) side)).agg),
              setBook_mem_self _ sym _ p hmemp hps, ?_⟩
            apply addOrderBook_orders_mono
            rw [setOpposing_orders, hbof]
            exact hi
          · rw [submitOrder_full s e sym side otype price quantity hq hpv hmkt hrest]
            refine ⟨(sym, setOpposing (bookOf e sym) side (matchSide s side (e.tick + 1) e.heap (newOrder s e.tick e.nextId sym side otype price quantity) (opposingOf (bookOf e sym) side)).levels),
              setBook_mem_self _ sym _ p hmemp hps, ?_⟩
            rw [setOpposing_orders, hbof]
            exact hi
  · rcases submitOrder_books_cases s e sym side otype price quantity with hb | hb | ⟨b2, hb⟩
    · rw [hb]
      exact ⟨p, hp, hi⟩
    · rw [hb]
      exact ⟨p, getOrCreate_orders_mono e.books sym p hp, hi⟩
    · rw [hb]
      exact ⟨p, setBook_mem_ne _ _ _ p (getOrCreate_orders_mono e.books sym p hp) hps, hi⟩

theorem getOrder_isSome_applyOp (e : Engine) (op : Op) (i : Nat) (hk : keysOk e)
    (hs : (getOrder e i).isSome = true) :
    (getOrder (applyOp e op) i).isSome = true := by
  cases op with
  | sub s sym side otype price quantity =>
    exact getOrder_isSome_submit s e sym side otype price quantity i hk hs
  | cancel j =>
    obtain ⟨p, hp, hi⟩ := (getOrder_isSome_iff e i).mp hs
    rw [getOrder_isSome_iff]
    show ∃ q ∈ (cancelOrder e j).1.books, i ∈ q.2.orders
    simp only [cancelOrder]
    split
    · exact ⟨p, hp, hi⟩
    · rename_i symq bq heq
      split
      · exact ⟨p, hp, hi⟩
      · dsimp only
        obtain ⟨hq1, hq2⟩ := findBookWith_some_mem e.books j (symq, bq) heq
        by_cases hps : p.1 = symq
        · have hfb : findBook e.books symq = some p.2 := by
            apply findBook_of_mem e.books symq p.2 hk
            rw [← hps]
            exact hp
          have hfb2 : findBook e.books symq = some bq :=
            findBook_of_mem e.books symq bq hk hq1
          have hpq : p.2 = bq := by
            rw [hfb] at hfb2
            exact Option.some.inj hfb2
          refine ⟨(symq, removeOrderBook bq
              { hfind e.heap j with status := OStatus.cancelled }),
            setBook_mem_self e.books symq _ p hp hps, ?_⟩
          dsimp only
          rw [removeOrderBook_orders, ← hpq]
          exact hi
        · exact ⟨p, setBook_mem_ne _ _ _ p hp hps, hi⟩

/-! ## Shape preservation through the engine operations -/

theorem goodShape_matchOpposing (s : Supply) (side : Side) (tick : Nat)
    (h : List (Nat × Order)) (order : Order) (b : OrderBook) (hg : goodShape b) :
    goodShape (setOpposing b side
      (matchSide s side tick h order (opposingOf b side)).levels) := by
  cases side
  · show goodShape { b with
      asks := (matchSide s Side.buy tick h order b.asks).levels }
    obtain ⟨n, hn⟩ := matchSide_prices_drop s Side.buy b.asks tick h order
    exact goodShape_asks_drop b _ n hg hn
  · show goodShape { b with
      bids := (matchSide s Side.sell tick h order b.bids).levels }
    obtain ⟨n, hn⟩ := matchSide_prices_drop s Side.sell b.bids tick h order
    exact goodShape_bids_drop b _ n hg hn

theorem goodShape_addRest (s : Supply) (side : Side) (tick : Nat)
    (h : List (Nat × Order)) (order : Order) (b : OrderBook) (hg : goodShape b)
    (hside : order.side = side)
    (hfl : (matchSide s side tick h order (opposingOf b side)).agg.filledQuantity <
      (matchSide s side tick h order (opposingOf b side)).agg.quantity) :
    goodShape (addOrderBook (setOpposing b side
      (matchSide s side tick h order (opposingOf b side)).levels)
      (matchSide s side tick h order (opposingOf b side)).agg) := by
  have hmid := goodShape_matchOpposing s side tick h order b hg
  have hcore := matchSide_agg_core s side (opposingOf b side) tick h order
  have hsd : (matchSide s side tick h order (opposingOf b side)).agg.side = side := by
    rw [hcore]
    exact hside
  have hpr : (matchSide s side tick h order (opposingOf b side)).agg.price =
      order.price := by rw [hcore]
  have hexit := matchSide_exit s side (opposingOf b side) tick h order
  rcases hexit with hex | hex | hex
  all_goals cases side
  -- buy, levels = []
  · unfold addOrderBook
    rw [if_pos hsd]
    refine goodShape_insert_bid _ _ hmid ?_
    intro la hla
    have : (setOpposing b Side.buy
        (matchSide s Side.buy tick h order (opposingOf b Side.buy)).levels).asks =
        (matchSide s Side.buy tick h order (opposingOf b Side.buy)).levels := rfl
    rw [show ({ setOpposing b Side.buy
        (matchSide s Side.buy tick h order (opposingOf b Side.buy)).levels with
        orders := if (matchSide s Side.buy tick h order
          (opposingOf b Side.buy)).agg.id ∈ (setOpposing b Side.buy
          (matchSide s Side.buy tick h order (opposingOf b Side.buy)).levels).orders
        then (setOpposing b Side.buy
          (matchSide s Side.buy tick h order (opposingOf b Side.buy)).levels).orders
        else (setOpposing b Side.buy
          (matchSide s Side.buy tick h order (opposingOf b Side.buy)).levels).orders ++
          [(matchSide s Side.buy tick h order (opposingOf b Side.buy)).agg.id] } :
      OrderBook).asks = (matchSide s Side.buy tick h order
        (opposingOf b Side.buy)).levels from rfl] at hla
    rw [hex] at hla
    simp at hla
  · -- sell, levels = []
    unfold addOrderBook
    rw [if_neg (by rw [hsd]; decide)]
    refine goodShape_insert_ask _ _ hmid ?_
    intro lb hlb
    rw [show ({ setOpposing b Side.sell
        (matchSide s Side.sell tick h order (opposingOf b Side.sell)).levels with
        orders := if (matchSide s Side.sell tick h order
          (opposingOf b Side.sell)).agg.id ∈ (setOpposing b Side.sell
          (matchSide s Side.sell tick h order (opposingOf b Side.sell)).levels).orders
        then (setOpposing b Side.sell
          (matchSide s Side.sell tick h order (opposingOf b Side.sell)).levels).orders
        else (setOpposing b Side.sell
          (matchSide s Side.sell tick h order (opposingOf b Side.sell)).levels).orders ++
          [(matchSide s Side.sell tick h order (opposingOf b Side.sell)).agg.id] } :
      OrderBook).bids = (matchSide s Side.sell tick h order
        (opposingOf b Side.sell)).levels from rfl] at hlb
    rw [hex] at hlb
    simp at hlb
  · exact absurd hfl (by omega)
  · exact absurd hfl (by omega)
  · -- buy, crossStop at head
    unfold addOrderBook
    rw [if_pos hsd]
    refine goodShape_insert_bid _ _ hmid ?_
    intro la hla
    have hcs := hex la hla
    unfold crossStop at hcs
    rw [if_pos rfl] at hcs
    rw [hcore]
    exact hcs.2
  · -- sell, crossStop at head
    unfold addOrderBook
    rw [if_neg (by rw [hsd]; decide)]
    refine goodShape_insert_ask _ _ hmid ?_
    intro lb hlb
    have hcs := hex lb hlb
    unfold crossStop at hcs
    rw [if_neg (by decide)] at hcs
    rw [hcore]
    exact hcs.2

theorem shapeOk_submitOrder (s : Supply) (e : Engine) (sym : String) (side : Side)
    (otype : OType) (price quantity : Int) (hs : shapeOk e) :
    shapeOk (submitOrder s e sym side otype price quantity).1 := by
  intro sym2
  by_cases hq : quantity ≤ 0
  · rw [submitOrder_invalidQuantity s e sym side otype price quantity hq]
    exact hs sym2
  · by_cases hpv : otype = OType.limit ∧ price ≤ 0
    · rw [submitOrder_invalidPrice s e sym side otype price quantity hq hpv]
      exact hs sym2
    · by_cases hmkt : otype = OType.market ∧
        sideRem e.heap (opposingOf (bookOf e sym) side) < quantity
      · rw [submitOrder_marketErr s e sym side otype price quantity hq hpv hmkt]
        unfold bookOf
        dsimp only
        by_cases hsym : sym2 = sym
        · subst hsym
          rw [findBook_getOrCreate_self]
          simp only [Option.getD_some]
          exact hs sym2
        · rw [findBook_getOrCreate_ne _ _ _ hsym]
          exact hs sym2
      · by_cases hrest : (matchSide s side (e.tick + 1) e.heap (newOrder s e.tick e.nextId sym side otype price quantity) (opposingOf (bookOf e sym) side)).agg.filledQuantity < (matchSide s side (e.tick + 1) e.heap (newOrder s e.tick e.nextId sym side otype price quantity) (opposingOf (bookOf e sym) side)).agg.quantity ∧ otype = OType.limit
        · rw [submitOrder_rest s e sym side otype price quantity hq hpv hmkt hrest]
          unfold bookOf
          dsimp only
          by_cases hsym : sym2 = sym
          · subst hsym
            rw [findBook_setBook_self _ _ _ (by rw [findBook_getOrCreate_self]; rfl)]
            simp only [Option.getD_some]
            exact goodShape_addRest s side (e.tick + 1) e.heap
              (newOrder s e.tick e.nextId sym2 side otype price quantity)
              (bookOf e sym2) (hs sym2) rfl hrest.1
          · rw [findBook_setBook_ne _ _ _ _ hsym, findBook_getOrCreate_ne _ _ _ hsym]
            exact hs sym2
        · rw [submitOrder_full s e sym side otype price quantity hq hpv hmkt hrest]
          unfold bookOf
          dsimp only
          by_cases hsym : sym2 = sym
          · subst hsym
            rw [findBook_setBook_self _ _ _ (by rw [findBook_getOrCreate_self]; rfl)]
            simp only [Option.getD_some]
            exact goodShape_matchOpposing s side (e.tick + 1) e.heap
              (newOrder s e.tick e.nextId sym2 side otype price quantity)
              (bookOf e sym2) (hs sym2)
          · rw [findBook_setBook_ne _ _ _ _ hsym, findBook_getOrCreate_ne _ _ _ hsym]
            exact hs sym2

theorem shapeOk_cancelOrder (e : Engine) (i : Nat) (hs : shapeOk e) (hk : keysOk e) :
    shapeOk (cancelOrder e i).1 := by
  intro sym2
  simp only [cancelOrder]
  split
  · exact hs sym2
  · rename_i symq bq heq
    split
    · exact hs sym2
    · obtain ⟨hq1, hq2⟩ := findBookWith_some_mem e.books i (symq, bq) heq
      have hfb : findBook e.books symq = some bq :=
        findBook_of_mem e.books symq bq hk hq1
      unfold bookOf
      dsimp only
      by_cases hsym : sym2 = symq
      · subst hsym
        rw [findBook_setBook_self _ _ _ (by rw [hfb]; rfl)]
        simp only [Option.getD_some]
        apply goodShape_remove
        have hbq : bookOf e sym2 = bq := by unfold bookOf; rw [hfb]; rfl
        rw [← hbq]
        exact hs sym2
      · rw [findBook_setBook_ne _ _ _ _ hsym]
        exact hs sym2

theorem shapeOk_keysOk_applyOp (e : Engine) (op : Op)
    (h : shapeOk e ∧ keysOk e) :
    shapeOk (applyOp e op) ∧ keysOk (applyOp e op) := by
  refine ⟨?_, keysOk_applyOp e op h.2⟩
  cases op with
  | sub s sym side otype price quantity =>
    exact shapeOk_submitOrder s e sym side otype price quantity h.1
  | cancel i =>
    exact shapeOk_cancelOrder e i h.1 h.2

theorem shapeOk_keysOk_runOps (ops : List Op) :
    ∀ e, shapeOk e ∧ keysOk e →
      shapeOk (runOps e ops) ∧ keysOk (runOps e ops) := by
  induction ops with
  | nil => intro e h; exact h
  | cons op rest ih =>
    intro e h
    exact ih (applyOp e op) (shapeOk_keysOk_applyOp e op h)

theorem shapeOk_emptyEngine : shapeOk emptyEngine ∧ keysOk emptyEngine := by
  constructor
  · intro sym
    unfold bookOf emptyEngine findBook
    exact goodShape_emptyBook sym
  · unfold keysOk emptyEngine
    simp

/-- C7: starting from the empty engine, every sequence of engine operations
(submissions, which insert and match, and cancellations) leaves every book
well shaped: bids strictly decreasing in price, asks strictly increasing,
and best bid strictly below best ask whenever both ladders are non-empty. -/
theorem c7_book_shape_invariant (ops : List Op) (sym : String) :
    goodShape (bookOf (runOps emptyEngine ops) sym) :=
  (shapeOk_keysOk_runOps ops emptyEngine shapeOk_emptyEngine).1 sym

/-! ## Supply erasure: the engine is deterministic up to drawn ids/timestamps -/

theorem hlookup_stripH (h : List (Nat × Order)) (i : Nat) :
    hlookup (stripH h) i = (hlookup h i).map stripO := by
  induction h with
  | nil => rfl
  | cons p t ih =>
    simp only [stripH, List.map_cons, hlookup]
    by_cases hp : p.1 = i
    · rw [if_pos hp, if_pos hp]
      rfl
    · rw [if_neg hp, if_neg hp]
      exact ih

theorem hfind_strip (h1 h2 : List (Nat × Order)) (hs : stripH h1 = stripH h2)
    (i : Nat) : stripO (hfind h1 i) = stripO (hfind h2 i) := by
  have h1l := hlookup_stripH h1 i
  have h2l := hlookup_stripH h2 i
  rw [hs, h2l] at h1l
  unfold hfind
  cases hc1 : hlookup h1 i with
  | none =>
    cases hc2 : hlookup h2 i with
    | none => rfl
    | some v2 =>
      rw [hc1, hc2] at h1l
      simp at h1l
  | some v1 =>
    cases hc2 : hlookup h2 i with
    | none =>
      rw [hc1, hc2] at h1l
      simp at h1l
    | some v2 =>
      rw [hc1, hc2] at h1l
      simp only [Option.map_some', Option.some.injEq] at h1l
      simpa using h1l.symm

theorem stripH_hupdate (h : List (Nat × Order)) (i : Nat) (o : Order) :
    stripH (hupdate h i o) = hupdate (stripH h) i (stripO o) := by
  induction h with
  | nil => rfl
  | cons p t ih =>
    simp only [stripH, hupdate, List.map_cons]
    by_cases hp : p.1 = i
    · rw [if_pos hp, if_pos hp]
      simp only [List.map_cons] at ih ⊢
      rw [show stripH (hupdate t i o) = List.map (fun p => (p.1, stripO p.2))
        (hupdate t i o) from rfl] at ih
      rw [ih]
      rfl
    · rw [if_neg hp, if_neg hp]
      simp only [List.map_cons] at ih ⊢
      rw [show stripH (hupdate t i o) = List.map (fun p => (p.1, stripO p.2))
        (hupdate t i o) from rfl] at ih
      rw [ih]
      rfl

theorem stripH_hinsert (h : List (Nat × Order)) (i : Nat) (o : Order) :
    stripH (hinsert h i o) = hinsert (stripH h) i (stripO o) := by
  unfold hinsert
  have hsome : (hlookup (stripH h) i).isSome = (hlookup h i).isSome := by
    rw [hlookup_stripH]
    cases hlookup h i <;> rfl
  by_cases hc : (hlookup h i).isSome
  · rw [if_pos hc, if_pos (by rw [hsome]; exact hc)]
    exact stripH_hupdate h i o
  · rw [if_neg hc, if_neg (by rw [hsome]; exact hc)]
    unfold stripH
    rw [List.map_append]
    rfl

theorem stripO_update_fill_status (o1 o2 : Order) (hs : stripO o1 = stripO o2)
    (x : Int) (st : OStatus) :
    stripO { o1 with filledQuantity := x, status := st } =
      stripO { o2 with filledQuantity := x, status := st } := by
  cases o1
  cases o2
  simp only [stripO, Order.mk.injEq] at hs ⊢
  tauto

theorem stripO_update_fill (o1 o2 : Order) (hs : stripO o1 = stripO o2) (x : Int) :
    stripO { o1 with filledQuantity := x } =
      stripO { o2 with filledQuantity := x } := by
  cases o1
  cases o2
  simp only [stripO, Order.mk.injEq] at hs ⊢
  tauto

theorem stripO_fields {o1 o2 : Order} (h : stripO o1 = stripO o2) :
    o1.id = o2.id ∧ o1.symbol = o2.symbol ∧ o1.side = o2.side ∧ o1.otype = o2.otype ∧
    o1.price = o2.price ∧ o1.quantity = o2.quantity ∧
    o1.filledQuantity = o2.filledQuantity ∧ o1.status = o2.status := by
  cases o1
  cases o2
  simp only [stripO, Order.mk.injEq] at h ⊢
  tauto

theorem stripO_update_fill_status2 (o1 o2 : Order) (hs : stripO o1 = stripO o2)
    (x1 x2 : Int) (hx : x1 = x2) (st : OStatus) :
    stripO { o1 with filledQuantity := x1, status := st } =
      stripO { o2 with filledQuantity := x2, status := st } := by
  subst hx
  exact stripO_update_fill_status o1 o2 hs x1 st

theorem stripO_update_fill2 (o1 o2 : Order) (hs : stripO o1 = stripO o2)
    (x1 x2 : Int) (hx : x1 = x2) :
    stripO { o1 with filledQuantity := x1 } =
      stripO { o2 with filledQuantity := x2 } := by
  subst hx
  exact stripO_update_fill o1 o2 hs x1

theorem matchLevel_strip (s1 s2 : Supply) (side : Side) (ords : List Nat) :
    ∀ tick h1 h2 a1 a2, stripH h1 = stripH h2 → stripO a1 = stripO a2 →
      (matchLevel s1 side tick h1 a1 ords).tick =
        (matchLevel s2 side tick h2 a2 ords).tick ∧
      stripH (matchLevel s1 side tick h1 a1 ords).heap =
        stripH (matchLevel s2 side tick h2 a2 ords).heap ∧
      stripO (matchLevel s1 side tick h1 a1 ords).agg =
        stripO (matchLevel s2 side tick h2 a2 ords).agg ∧
      (matchLevel s1 side tick h1 a1 ords).rest =
        (matchLevel s2 side tick h2 a2 ords).rest ∧
      (matchLevel s1 side tick h1 a1 ords).trades.map tradeObs =
        (matchLevel s2 side tick h2 a2 ords).trades.map tradeObs := by
  induction ords with
  | nil =>
    intro tick h1 h2 a1 a2 hh ha
    exact ⟨rfl, hh, ha, rfl, rfl⟩
  | cons rid rest ih =>
    intro tick h1 h2 a1 a2 hh ha
    obtain ⟨hai, _, _, _, _, haq, haf, _⟩ := stripO_fields ha
    have hrs := hfind_strip h1 h2 hh rid
    obtain ⟨_, _, _, _, hrp, hrq, hrf, _⟩ := stripO_fields hrs
    simp only [matchLevel]
    by_cases hg1 : a1.filledQuantity < a1.quantity
    · have hg2 : a2.filledQuantity < a2.quantity := by omega
      rw [if_pos hg1, if_pos hg2]
      have htq : min (a1.quantity - a1.filledQuantity)
          ((hfind h1 rid).quantity - (hfind h1 rid).filledQuantity) =
        min (a2.quantity - a2.filledQuantity)
          ((hfind h2 rid).quantity - (hfind h2 rid).filledQuantity) := by
        rw [haq, haf, hrq, hrf]
      by_cases hc1 : (hfind h1 rid).filledQuantity +
          min (a1.quantity - a1.filledQuantity)
            ((hfind h1 rid).quantity - (hfind h1 rid).filledQuantity) =
          (hfind h1 rid).quantity
      · have hc2 : (hfind h2 rid).filledQuantity +
            min (a2.quantity - a2.filledQuantity)
              ((hfind h2 rid).quantity - (hfind h2 rid).filledQuantity) =
            (hfind h2 rid).quantity := by omega
        rw [if_pos hc1, if_pos hc2]
        have hih := ih (tick + 1)
          (hupdate h1 rid
            { hfind h1 rid with
              filledQuantity := (hfind h1 rid).filledQuantity +
                min (a1.quantity - a1.filledQuantity)
                  ((hfind h1 rid).quantity - (hfind h1 rid).filledQuantity)
              status := OStatus.filled })
          (hupdate h2 rid
            { hfind h2 rid with
              filledQuantity := (hfind h2 rid).filledQuantity +
                min (a2.quantity - a2.filledQuantity)
                  ((hfind h2 rid).quantity - (hfind h2 rid).filledQuantity)
              status := OStatus.filled })
          { a1 with
            filledQuantity := a1.filledQuantity +
              min (a1.quantity - a1.filledQuantity)
                ((hfind h1 rid).quantity - (hfind h1 rid).filledQuantity) }
          { a2 with
            filledQuantity := a2.filledQuantity +
              min (a2.quantity - a2.filledQuantity)
                ((hfind h2 rid).quantity - (hfind h2 rid).filledQuantity) }
          (by
            rw [stripH_hupdate, stripH_hupdate, hh]
            exact congrArg (hupdate (stripH h2) rid)
              (stripO_update_fill_status2 (hfind h1 rid) (hfind h2 rid) hrs _ _
                (by omega) _))
          (stripO_update_fill2 a1 a2 ha _ _ (by omega))
        refine ⟨hih.1, hih.2.1, hih.2.2.1, hih.2.2.2.1, ?_⟩
        dsimp only
        simp only [List.map_cons]
        rw [hih.2.2.2.2]
        unfold tradeObs
        rw [htq, hrp, hai]
      · have hc2 : ¬ ((hfind h2 rid).filledQuantity +
            min (a2.quantity - a2.filledQuantity)
              ((hfind h2 rid).quantity - (hfind h2 rid).filledQuantity) =
            (hfind h2 rid).quantity) := by omega
        rw [if_neg hc1, if_neg hc2]
        refine ⟨rfl, ?_, ?_, rfl, ?_⟩
        · dsimp only
          rw [stripH_hupdate, stripH_hupdate, hh]
          exact congrArg (hupdate (stripH h2) rid)
            (stripO_update_fill_status2 (hfind h1 rid) (hfind h2 rid) hrs _ _ (by omega) _)
        · dsimp only
          apply stripO_update_fill2 a1 a2 ha
          omega
        · dsimp only
          simp only [List.map_cons, List.map_nil]
          unfold tradeObs
          rw [htq, hrp, hai]
    · have hg2 : ¬ a2.filledQuantity < a2.quantity := by omega
      rw [if_neg hg1, if_neg hg2]
      exact ⟨rfl, hh, ha, rfl, rfl⟩

theorem matchSide_strip (s1 s2 : Supply) (side : Side) (levels : List PriceLevel) :
    ∀ tick h1 h2 a1 a2, stripH h1 = stripH h2 → stripO a1 = stripO a2 →
      (matchSide s1 side tick h1 a1 levels).tick =
        (matchSide s2 side tick h2 a2 levels).tick ∧
      stripH (matchSide s1 side tick h1 a1 levels).heap =
        stripH (matchSide s2 side tick h2 a2 levels).heap ∧
      stripO (matchSide s1 side tick h1 a1 levels).agg =
        stripO (matchSide s2 side tick h2 a2 levels).agg ∧
      (matchSide s1 side tick h1 a1 levels).levels =
        (matchSide s2 side tick h2 a2 levels).levels ∧
      (matchSide s1 side tick h1 a1 levels).trades.map tradeObs =
        (matchSide s2 side tick h2 a2 levels).trades.map tradeObs := by
  induction levels with
  | nil =>
    intro tick h1 h2 a1 a2 hh ha
    exact ⟨rfl, hh, ha, rfl, rfl⟩
  | cons lvl rest ih =>
    intro tick h1 h2 a1 a2 hh ha
    obtain ⟨hai, _, _, hao, hap, haq, haf, _⟩ := stripO_fields ha
    have hcs : crossStop side a1 lvl ↔ crossStop side a2 lvl := by
      unfold crossStop
      rw [hao, hap]
    simp only [matchSide]
    by_cases hg1 : a1.filledQuantity < a1.quantity
    · have hg2 : a2.filledQuantity < a2.quantity := by omega
      rw [if_pos hg1, if_pos hg2]
      by_cases hx1 : crossStop side a1 lvl
      · rw [if_pos hx1, if_pos (hcs.mp hx1)]
        exact ⟨rfl, hh, ha, rfl, rfl⟩
      · rw [if_neg hx1, if_neg (fun hc => hx1 (hcs.mpr hc))]
        have hlev := matchLevel_strip s1 s2 side lvl.orders tick h1 h2 a1 a2 hh ha
        rw [hlev.2.2.2.1]
        by_cases hemp : ((matchLevel s2 side tick h2 a2 lvl.orders).rest).isEmpty
        · rw [if_pos hemp, if_pos hemp]
          dsimp only
          rw [hlev.1]
          have hrec := ih (matchLevel s2 side tick h2 a2 lvl.orders).tick
            (matchLevel s1 side tick h1 a1 lvl.orders).heap
            (matchLevel s2 side tick h2 a2 lvl.orders).heap
            (matchLevel s1 side tick h1 a1 lvl.orders).agg
            (matchLevel s2 side tick h2 a2 lvl.orders).agg
            hlev.2.1 hlev.2.2.1
          refine ⟨hrec.1, hrec.2.1, hrec.2.2.1, hrec.2.2.2.1, ?_⟩
          simp only [List.map_append]
          rw [hlev.2.2.2.2, hrec.2.2.2.2]
        · rw [if_neg hemp, if_neg hemp]
          refine ⟨hlev.1, hlev.2.1, hlev.2.2.1, ?_, hlev.2.2.2.2⟩
          dsimp only
    · have hg2 : ¬ a2.filledQuantity < a2.quantity := by omega
      rw [if_neg hg1, if_neg hg2]
      exact ⟨rfl, hh, ha, rfl, rfl⟩

theorem stripO_newOrder (s : Supply) (tick nid : Nat) (sym : String) (side : Side)
    (otype : OType) (price quantity : Int) :
    stripO (newOrder s tick nid sym side otype price quantity) =
      ⟨nid, sym, side, otype, price, quantity, 0, OStatus.accepted, 0⟩ := rfl

theorem remOf_strip (h1 h2 : List (Nat × Order)) (hs : stripH h1 = stripH h2)
    (j : Nat) : remOf h1 j = remOf h2 j := by
  obtain ⟨_, _, _, _, _, hq, hf, _⟩ := stripO_fields (hfind_strip h1 h2 hs j)
  unfold remOf
  rw [hq, hf]

theorem sideRem_strip (h1 h2 : List (Nat × Order)) (hs : stripH h1 = stripH h2)
    (ls : List PriceLevel) : sideRem h1 ls = sideRem h2 ls := by
  have hrem : remOf h1 = remOf h2 := funext (remOf_strip h1 h2 hs)
  have hlev : levelRem h1 = levelRem h2 := by
    funext lvl
    unfold levelRem
    rw [hrem]
  unfold sideRem
  rw [hlev]

theorem addToBids_ext (bids : List PriceLevel) (o1 o2 : Order)
    (hid : o1.id = o2.id) (hp : o1.price = o2.price) :
    addToBids bids o1 = addToBids bids o2 := by
  unfold addToBids
  rw [hid, hp]

theorem addToAsks_ext (asks : List PriceLevel) (o1 o2 : Order)
    (hid : o1.id = o2.id) (hp : o1.price = o2.price) :
    addToAsks asks o1 = addToAsks asks o2 := by
  unfold addToAsks
  rw [hid, hp]

theorem addOrderBook_ext (b : OrderBook) (o1 o2 : Order)
    (hid : o1.id = o2.id) (hp : o1.price = o2.price) (hs : o1.side = o2.side) :
    addOrderBook b o1 = addOrderBook b o2 := by
  simp only [addOrderBook]
  rw [hid, hs, addToBids_ext _ o1 o2 hid hp, addToAsks_ext _ o1 o2 hid hp]

theorem submitOrder_strip (s1 s2 : Supply) (e1 e2 : Engine) (sym : String)
    (side : Side) (otype : OType) (price quantity : Int)
    (hE : stripE e1 = stripE e2) :
    stripE (submitOrder s1 e1 sym side otype price quantity).1 =
      stripE (submitOrder s2 e2 sym side otype price quantity).1 ∧
    subObs (submitOrder s1 e1 sym side otype price quantity).2 =
      subObs (submitOrder s2 e2 sym side otype price quantity).2 := by
  obtain ⟨h1, bs1, n1, t1⟩ := e1
  obtain ⟨h2, bs2, n2, t2⟩ := e2
  have hb : bs1 = bs2 := congrArg Engine.books hE
  have hn : n1 = n2 := congrArg Engine.nextId hE
  have ht : t1 = t2 := congrArg Engine.tick hE
  cases hb
  cases hn
  cases ht
  have hh : stripH h1 = stripH h2 := congrArg Engine.heap hE
  by_cases hq : quantity ≤ 0
  · rw [submitOrder_invalidQuantity s1 ⟨h1, bs1, n1, t1⟩ sym side otype price quantity hq,
        submitOrder_invalidQuantity s2 ⟨h2, bs1, n1, t1⟩ sym side otype price quantity hq]
    exact ⟨hE, rfl⟩
  · by_cases hp : otype = OType.limit ∧ price ≤ 0
    · rw [submitOrder_invalidPrice s1 ⟨h1, bs1, n1, t1⟩ sym side otype price quantity hq hp,
          submitOrder_invalidPrice s2 ⟨h2, bs1, n1, t1⟩ sym side otype price quantity hq hp]
      exact ⟨hE, rfl⟩
    · have hsr : sideRem h1 (opposingOf ((findBook bs1 sym).getD (emptyBook sym)) side) =
          sideRem h2 (opposingOf ((findBook bs1 sym).getD (emptyBook sym)) side) :=
        sideRem_strip h1 h2 hh _
      by_cases hmkt : otype = OType.market ∧
          sideRem h1 (opposingOf ((findBook bs1 sym).getD (emptyBook sym)) side) < quantity
      · have hmkt2 : otype = OType.market ∧
            sideRem h2 (opposingOf ((findBook bs1 sym).getD (emptyBook sym)) side) < quantity :=
          ⟨hmkt.1, by have h := hmkt.2; omega⟩
        rw [submitOrder_marketErr s1 ⟨h1, bs1, n1, t1⟩ sym side otype price quantity hq hp hmkt,
            submitOrder_marketErr s2 ⟨h2, bs1, n1, t1⟩ sym side otype price quantity hq hp hmkt2]
        refine ⟨?_, rfl⟩
        simp only [stripE, Engine.mk.injEq]
        exact ⟨hh, trivial, trivial, trivial⟩
      · have hmkt2 : ¬ (otype = OType.market ∧
            sideRem h2 (opposingOf ((findBook bs1 sym).getD (emptyBook sym)) side) < quantity) :=
          fun hc => hmkt ⟨hc.1, by have h := hc.2; omega⟩
        have hM := matchSide_strip s1 s2 side
          (opposingOf ((findBook bs1 sym).getD (emptyBook sym)) side) (t1 + 1) h1 h2
          (newOrder s1 t1 n1 sym side otype price quantity)
          (newOrder s2 t1 n1 sym side otype price quantity) hh
          (by rw [stripO_newOrder, stripO_newOrder])
        obtain ⟨hid, _, hsd, _, hpr, hqty, hfq, hst⟩ := stripO_fields hM.2.2.1
        by_cases hrest : (matchSide s1 side (t1 + 1) h1
            (newOrder s1 t1 n1 sym side otype price quantity)
            (opposingOf ((findBook bs1 sym).getD (emptyBook sym)) side)).agg.filledQuantity <
          (matchSide s1 side (t1 + 1) h1
            (newOrder s1 t1 n1 sym side otype price quantity)
            (opposingOf ((findBook bs1 sym).getD (emptyBook sym)) side)).agg.quantity ∧
          otype = OType.limit
        · have hrest2 : (matchSide s2 side (t1 + 1) h2
              (newOrder s2 t1 n1 sym side otype price quantity)
              (opposingOf ((findBook bs1 sym).getD (emptyBook sym)) side)).agg.filledQuantity <
            (matchSide s2 side (t1 + 1) h2
              (newOrder s2 t1 n1 sym side otype price quantity)
              (opposingOf ((findBook bs1 sym).getD (emptyBook sym)) side)).agg.quantity ∧
            otype = OType.limit :=
            ⟨by have h := hrest.1; omega, hrest.2⟩
          rw [submitOrder_rest s1 ⟨h1, bs1, n1, t1⟩ sym side otype price quantity hq hp hmkt hrest,
              submitOrder_rest s2 ⟨h2, bs1, n1, t1⟩ sym side otype price quantity hq hp hmkt2 hrest2]
          dsimp only [bookOf]
          constructor
          · simp only [stripE, Engine.mk.injEq]
            refine ⟨?_, ?_, trivial, hM.1⟩
            · rw [stripH_hinsert, stripH_hinsert, hM.2.1, hid, hM.2.2.1]
            · rw [hM.2.2.2.1]
              exact congrArg (setBook (getOrCreateBooks bs1 sym) sym)
                (addOrderBook_ext _ _ _ hid hpr hsd)
          · simp only [subObs, Except.map, resObs]
            rw [hid, hfq, hqty, hM.2.2.2.2]
        · have hrest2 : ¬ ((matchSide s2 side (t1 + 1) h2
              (newOrder s2 t1 n1 sym side otype price quantity)
              (opposingOf ((findBook bs1 sym).getD (emptyBook sym)) side)).agg.filledQuantity <
            (matchSide s2 side (t1 + 1) h2
              (newOrder s2 t1 n1 sym side otype price quantity)
              (opposingOf ((findBook bs1 sym).getD (emptyBook sym)) side)).agg.quantity ∧
            otype = OType.limit) :=
            fun hc => hrest ⟨by have h := hc.1; omega, hc.2⟩
          rw [submitOrder_full s1 ⟨h1, bs1, n1, t1⟩ sym side otype price quantity hq hp hmkt hrest,
              submitOrder_full s2 ⟨h2, bs1, n1, t1⟩ sym side otype price quantity hq hp hmkt2 hrest2]
          dsimp only [bookOf]
          constructor
          · simp only [stripE, Engine.mk.injEq]
            exact ⟨hM.2.1, by rw [hM.2.2.2.1], trivial, hM.1⟩
          · simp only [subObs, Except.map, resObs]
            rw [hid, hfq, hqty, hst, hM.2.2.2.2]

theorem runSubs_strip (s1 s2 : Supply) (sbs : List Sub) :
    ∀ e1 e2, stripE e1 = stripE e2 →
      stripE (runSubs s1 e1 sbs).1 = stripE (runSubs s2 e2 sbs).1 ∧
      (runSubs s1 e1 sbs).2.map tradeObs = (runSubs s2 e2 sbs).2.map tradeObs := by
  induction sbs with
  | nil =>
    intro e1 e2 hE
    exact ⟨hE, rfl⟩
  | cons sb sbs ih =>
    intro e1 e2 hE
    have hs := submitOrder_strip s1 s2 e1 e2 sb.symbol sb.side sb.otype sb.price
      sb.quantity hE
    have hrec := ih (submitOrder s1 e1 sb.symbol sb.side sb.otype sb.price sb.quantity).1
      (submitOrder s2 e2 sb.symbol sb.side sb.otype sb.price sb.quantity).1 hs.1
    have hts : (match (submitOrder s1 e1 sb.symbol sb.side sb.otype sb.price sb.quantity).2 with
        | Except.ok res => res.trades
        | Except.error _ => ([] : List Trade)).map tradeObs =
      (match (submitOrder s2 e2 sb.symbol sb.side sb.otype sb.price sb.quantity).2 with
        | Except.ok res => res.trades
        | Except.error _ => ([] : List Trade)).map tradeObs := by
      have h2 := hs.2
      cases hc1 : (submitOrder s1 e1 sb.symbol sb.side sb.otype sb.price sb.quantity).2 with
      | error a =>
        cases hc2 : (submitOrder s2 e2 sb.symbol sb.side sb.otype sb.price sb.quantity).2 with
        | error b => rfl
        | ok r2 =>
          rw [hc1, hc2] at h2
          simp only [subObs, Except.map] at h2
          exact Except.noConfusion h2
      | ok r1 =>
        cases hc2 : (submitOrder s2 e2 sb.symbol sb.side sb.otype sb.price sb.quantity).2 with
        | error b =>
          rw [hc1, hc2] at h2
          simp only [subObs, Except.map] at h2
          exact Except.noConfusion h2
        | ok r2 =>
          rw [hc1, hc2] at h2
          simp only [subObs, Except.map, Except.ok.injEq] at h2
          exact congrArg (fun x => x.2.2.2.2) h2
    simp only [runSubs]
    refine ⟨hrec.1, ?_⟩
    simp only [List.map_append]
    rw [hrec.2, hts]

/-- C9: determinism: two runs applying the identical submission sequence
to the empty engine emit, in order, trades with identical price, quantity and
buyer/seller assignment (trade ids and timestamps excluded), whatever the
uuid/clock supplies of the two runs draw. -/
theorem c9_submission_determinism (s1 s2 : Supply) (sbs : List Sub) :
    (runSubs s1 emptyEngine sbs).2.map tradeObs =
      (runSubs s2 emptyEngine sbs).2.map tradeObs :=
  (runSubs_strip s1 s2 sbs emptyEngine emptyEngine rfl).2

theorem addOrderBook_mem_id (b : OrderBook) (o : Order) :
    o.id ∈ (addOrderBook b o).orders := by
  unfold addOrderBook
  dsimp only
  split
  · show o.id ∈ (if o.id ∈ b.orders then b.orders else b.orders ++ [o.id])
    split
    · assumption
    · simp
  · show o.id ∈ (if o.id ∈ b.orders then b.orders else b.orders ++ [o.id])
    split
    · assumption
    · simp

theorem findBook_mem (books : List (String × OrderBook)) (sym : String)
    (b : OrderBook) (h : findBook books sym = some b) : (sym, b) ∈ books := by
  induction books with
  | nil => exact absurd h (by simp [findBook])
  | cons p t ih =>
    unfold findBook at h
    by_cases hp : p.1 = sym
    · rw [if_pos hp] at h
      have hb : p.2 = b := Option.some.inj h
      have hpe : p = (sym, b) := by
        obtain ⟨p1, p2⟩ := p
        cases hp
        cases hb
        rfl
      rw [← hpe]
      exact List.mem_cons_self _ _
    · rw [if_neg hp] at h
      exact List.mem_cons_of_mem _ (ih h)

theorem getOrder_isSome_runOps (ops : List Op) :
    ∀ e i, keysOk e → (getOrder e i).isSome = true →
      (getOrder (runOps e ops) i).isSome = true := by
  induction ops with
  | nil =>
    intro e i _ hs
    exact hs
  | cons op rest ih =>
    intro e i hk hs
    exact ih (applyOp e op) i (keysOk_applyOp e op hk)
      (getOrder_isSome_applyOp e op i hk hs)

theorem getOrder_isSome_rest (s : Supply) (e : Engine) (sym : String) (side : Side)
    (otype : OType) (price quantity : Int) (res : OrderResult)
    (hsub : (submitOrder s e sym side otype price quantity).2 = Except.ok res)
    (hrem : 0 < res.remainingQuantity) :
    (getOrder (submitOrder s e sym side otype price quantity).1 res.orderId).isSome
      = true := by
  by_cases hq : quantity ≤ 0
  · rw [submitOrder_invalidQuantity s e sym side otype price quantity hq] at hsub
    exact Except.noConfusion hsub
  · by_cases hp : otype = OType.limit ∧ price ≤ 0
    · rw [submitOrder_invalidPrice s e sym side otype price quantity hq hp] at hsub
      exact Except.noConfusion hsub
    · by_cases hmkt : otype = OType.market ∧
          sideRem e.heap (opposingOf (bookOf e sym) side) < quantity
      · rw [submitOrder_marketErr s e sym side otype price quantity hq hp hmkt] at hsub
        exact Except.noConfusion hsub
      · by_cases hrest : (matchSide s side (e.tick + 1) e.heap
            (newOrder s e.tick e.nextId sym side otype price quantity)
            (opposingOf (bookOf e sym) side)).agg.filledQuantity <
          (matchSide s side (e.tick + 1) e.heap
            (newOrder s e.tick e.nextId sym side otype price quantity)
            (opposingOf (bookOf e sym) side)).agg.quantity ∧ otype = OType.limit
        · rw [submitOrder_rest s e sym side otype price quantity hq hp hmkt hrest]
            at hsub ⊢
          have hres := Except.ok.inj hsub
          cases hres
          rw [getOrder_isSome_iff]
          refine ⟨(sym, addOrderBook (setOpposing (bookOf e sym) side
            (matchSide s side (e.tick + 1) e.heap
              (newOrder s e.tick e.nextId sym side otype price quantity)
              (opposingOf (bookOf e sym) side)).levels)
            (matchSide s side (e.tick + 1) e.heap
              (newOrder s e.tick e.nextId sym side otype price quantity)
              (opposingOf (bookOf e sym) side)).agg), ?_, ?_⟩
          · apply setBook_mem_self _ sym _
              (sym, (findBook e.books sym).getD (emptyBook sym))
            · exact findBook_mem _ sym _ (findBook_getOrCreate_self e.books sym)
            · rfl
          · exact addOrderBook_mem_id _ _
        · rw [submitOrder_full s e sym side otype price quantity hq hp hmkt hrest]
            at hsub
          have hres := Except.ok.inj hsub
          cases hres
          exact absurd hrem (lt_irrefl 0)

/-- C1 (amended): a successful submission whose order actually rests on the
book (positive remaining quantity in the returned result) registers the order
id, and `getOrder` keeps succeeding on that id after any later sequence of
operations; a submission that fills completely at submission is never
registered (see the counterexample to the frozen claim). -/
theorem c1_resting_retrievable (s : Supply) (e : Engine) (sym : String)
    (side : Side) (otype : OType) (price quantity : Int) (res : OrderResult)
    (ops : List Op) (hk : keysOk e)
    (hsub : (submitOrder s e sym side otype price quantity).2 = Except.ok res)
    (hrem : 0 < res.remainingQuantity) :
    (getOrder (runOps (submitOrder s e sym side otype price quantity).1 ops)
      res.orderId).isSome = true :=
  getOrder_isSome_runOps ops (submitOrder s e sym side otype price quantity).1
    res.orderId (keysOk_applyOp e (Op.sub s sym side otype price quantity) hk)
    (getOrder_isSome_rest s e sym side otype price quantity res hsub hrem)

/-- C1 (counterexample to the frozen claim): a limit buy that fills completely
at submission returns a successful result carrying order id 1 and status
FILLED, yet `getOrder` on id 1 fails immediately afterwards — a
fully-filled-at-submission order is never registered in any book's id index. -/
theorem c1_full_fill_unretrievable :
    (submitOrder s0 (submitOrder s0 emptyEngine "A" Side.sell OType.limit 100 50).1
        "A" Side.buy OType.limit 100 50).2 =
      Except.ok ⟨1, OStatus.filled, 50, 0, [⟨2, 100, 50, 2, 1, 0⟩]⟩ ∧
    getOrder (submitOrder s0 (submitOrder s0 emptyEngine "A" Side.sell OType.limit
        100 50).1 "A" Side.buy OType.limit 100 50).1 1 = none :=
  ⟨rfl, rfl⟩

/-- Closed instance of the amended C1 theorem: the resting sell order with id 0
is still retrievable after a later buy submission. -/
theorem c1_resting_retrievable_witness :
    (getOrder (runOps (submitOrder s0 emptyEngine "A" Side.sell OType.limit 100 50).1
      [Op.sub s0 "A" Side.buy OType.limit 90 10]) 0).isSome = true :=
  c1_resting_retrievable s0 emptyEngine "A" Side.sell OType.limit 100 50
    ⟨0, OStatus.accepted, 0, 50, []⟩ [Op.sub s0 "A" Side.buy OType.limit 90 10]
    (by simp [keysOk, emptyEngine]) rfl (by decide)

/-- C2 (amended): `CancelOrder` on an unknown id fails with NotFound and
changes nothing; on a FILLED order it fails (AlreadyFilled) and changes
nothing; but on an already-CANCELLED order it reports success rather than
failing — only FILLED is rejected by the status check. -/
theorem c2_cancel_outcomes (e : Engine) (i : Nat) :
    (findBookWith e.books i = none →
      cancelOrder e i = (e, Except.error CancelErr.notFound)) ∧
    ((findBookWith e.books i).isSome = true →
      (hfind e.heap i).status = OStatus.filled →
      cancelOrder e i = (e, Except.error CancelErr.alreadyFilled)) ∧
    ((findBookWith e.books i).isSome = true →
      (hfind e.heap i).status = OStatus.cancelled →
      (cancelOrder e i).2 = Except.ok ()) := by
  refine ⟨?_, ?_, ?_⟩
  · intro hn
    unfold cancelOrder
    rw [hn]
  · intro hs hf
    obtain ⟨p, hp⟩ := Option.isSome_iff_exists.mp hs
    obtain ⟨sym, b⟩ := p
    unfold cancelOrder
    rw [hp]
    dsimp only
    rw [if_pos hf]
  · intro hs hc
    obtain ⟨p, hp⟩ := Option.isSome_iff_exists.mp hs
    obtain ⟨sym, b⟩ := p
    unfold cancelOrder
    rw [hp]
    dsimp only
    rw [if_neg (by rw [hc]; intro hcon; exact OStatus.noConfusion hcon)]

/-- C2 (counterexample to the frozen claim): cancelling an already-CANCELLED
order reports success — the status check only rejects FILLED. -/
theorem c2_double_cancel_succeeds :
    (cancelOrder (cancelOrder (submitOrder s0 emptyEngine "A" Side.sell
        OType.limit 100 50).1 0).1 0).2 = Except.ok () := rfl

/-- Closed instance of the amended C2 theorem: an unknown id, a FILLED order
and a CANCELLED order, each cancelled on a concrete engine. -/
theorem c2_cancel_outcomes_witness :
    cancelOrder emptyEngine 7 = (emptyEngine, Except.error CancelErr.notFound) ∧
    cancelOrder (submitOrder s0 (submitOrder s0 emptyEngine "A" Side.sell OType.limit
        100 50).1 "A" Side.buy OType.limit 100 50).1 0 =
      ((submitOrder s0 (submitOrder s0 emptyEngine "A" Side.sell OType.limit
        100 50).1 "A" Side.buy OType.limit 100 50).1,
       Except.error CancelErr.alreadyFilled) ∧
    (cancelOrder (cancelOrder (submitOrder s0 emptyEngine "A" Side.sell
        OType.limit 100 50).1 0).1 0).2 = Except.ok () :=
  ⟨(c2_cancel_outcomes emptyEngine 7).1 rfl,
   (c2_cancel_outcomes (submitOrder s0 (submitOrder s0 emptyEngine "A" Side.sell
     OType.limit 100 50).1 "A" Side.buy OType.limit 100 50).1 0).2.1 rfl rfl,
   (c2_cancel_outcomes (cancelOrder (submitOrder s0 emptyEngine "A" Side.sell
     OType.limit 100 50).1 0).1 0).2.2 rfl rfl⟩

/-- C5: every trade emitted by `matchBuyOrder`/`matchSellOrder` carries the
resting (book-side) order's limit price, never the aggressor's; consequently
a LIMIT aggressor never trades worse than its limit — at most its limit for a
buy, at least its limit for a sell. -/
theorem c5_trade_price_resting (s : Supply) (tick : Nat) (h : List (Nat × Order))
    (agg : Order) (levels : List PriceLevel) (hcoh : pricesCoherent h levels) :
    (∀ t ∈ (matchBuyOrder s tick h agg levels).trades,
      t.price = (hfind h t.sellerId).price ∧
      (agg.otype = OType.limit → t.price ≤ agg.price)) ∧
    (∀ t ∈ (matchSellOrder s tick h agg levels).trades,
      t.price = (hfind h t.buyerId).price ∧
      (agg.otype = OType.limit → agg.price ≤ t.price)) := by
  constructor
  · intro t ht
    refine ⟨matchSide_trade_resting s Side.buy levels tick h agg t ht, ?_⟩
    intro hlim
    have hb := matchSide_trade_le s Side.buy levels tick h agg hcoh hlim t ht
    simpa using hb
  · intro t ht
    refine ⟨matchSide_trade_resting s Side.sell levels tick h agg t ht, ?_⟩
    intro hlim
    have hb := matchSide_trade_le s Side.sell levels tick h agg hcoh hlim t ht
    simpa using hb

/-- Closed instance of C5: a buy and a sell limit aggressor against a
one-order book, price bound checked on the emitted trade. -/
theorem c5_trade_price_resting_witness :
    (∀ t ∈ (matchBuyOrder s0 0 [(0, ⟨0, "A", Side.sell, OType.limit, 100, 50, 0,
        OStatus.accepted, 0⟩)] ⟨1, "A", Side.buy, OType.limit, 110, 30, 0,
        OStatus.accepted, 0⟩ [⟨100, [0]⟩]).trades,
      t.price = (hfind [(0, ⟨0, "A", Side.sell, OType.limit, 100, 50, 0,
        OStatus.accepted, 0⟩)] t.sellerId).price ∧
      ((⟨1, "A", Side.buy, OType.limit, 110, 30, 0, OStatus.accepted, 0⟩ :
          Order).otype = OType.limit →
        t.price ≤ (⟨1, "A", Side.buy, OType.limit, 110, 30, 0, OStatus.accepted, 0⟩ :
          Order).price)) ∧
    (∀ t ∈ (matchSellOrder s0 0 [(0, ⟨0, "A", Side.sell, OType.limit, 100, 50, 0,
        OStatus.accepted, 0⟩)] ⟨1, "A", Side.buy, OType.limit, 110, 30, 0,
        OStatus.accepted, 0⟩ [⟨100, [0]⟩]).trades,
      t.price = (hfind [(0, ⟨0, "A", Side.sell, OType.limit, 100, 50, 0,
        OStatus.accepted, 0⟩)] t.buyerId).price ∧
      ((⟨1, "A", Side.buy, OType.limit, 110, 30, 0, OStatus.accepted, 0⟩ :
          Order).otype = OType.limit →
        (⟨1, "A", Side.buy, OType.limit, 110, 30, 0, OStatus.accepted, 0⟩ :
          Order).price ≤ t.price)) :=
  c5_trade_price_resting s0 0 [(0, ⟨0, "A", Side.sell, OType.limit, 100, 50, 0,
    OStatus.accepted, 0⟩)] ⟨1, "A", Side.buy, OType.limit, 110, 30, 0,
    OStatus.accepted, 0⟩ [⟨100, [0]⟩] (by unfold pricesCoherent; decide)

/-- C6: price-time priority inside a level: the trades' resting counterparties
form exactly a prefix of the level's FIFO queue, every consumed queue entry
except possibly the last is completely filled (status FILLED), and every order
outside that prefix — in particular every later-arrived order at the price —
is left completely untouched. -/
theorem c6_fifo_price_time (s : Supply) (side : Side) (ords : List Nat)
    (tick : Nat) (h : List (Nat × Order)) (agg : Order) (hnd : ords.Nodup)
    (hpres : ∀ j ∈ ords, (hlookup h j).isSome = true) :
    (matchLevel s side tick h agg ords).trades.map (restingIdOf side) =
      ords.take (matchLevel s side tick h agg ords).trades.length ∧
    (∀ j ∈ ords.take ((matchLevel s side tick h agg ords).trades.length - 1),
      (hfind (matchLevel s side tick h agg ords).heap j).filledQuantity =
        (hfind (matchLevel s side tick h agg ords).heap j).quantity ∧
      (hfind (matchLevel s side tick h agg ords).heap j).status = OStatus.filled) ∧
    (∀ j, j ∉ ords.take (matchLevel s side tick h agg ords).trades.length →
      hlookup (matchLevel s side tick h agg ords).heap j = hlookup h j) :=
  ⟨matchLevel_fifo_ids s side ords tick h agg,
   matchLevel_consumed_filled s side ords tick h agg hnd hpres,
   fun j hj => matchLevel_heap_frame s side ords tick h agg j hj⟩

/-- Closed instance of C6: a level holding two resting sells, the first fully
consumed, the second only partially touched. -/
theorem c6_fifo_price_time_witness :
    (matchLevel s0 Side.buy 0 [(0, ⟨0, "A", Side.sell, OType.limit, 100, 30, 0,
        OStatus.accepted, 0⟩), (1, ⟨1, "A", Side.sell, OType.limit, 100, 40, 0,
        OStatus.accepted, 0⟩)] ⟨2, "A", Side.buy, OType.limit, 100, 50, 0,
        OStatus.accepted, 0⟩ [0, 1]).trades.map (restingIdOf Side.buy) =
      [0, 1].take (matchLevel s0 Side.buy 0 [(0, ⟨0, "A", Side.sell, OType.limit,
        100, 30, 0, OStatus.accepted, 0⟩), (1, ⟨1, "A", Side.sell, OType.limit,
        100, 40, 0, OStatus.accepted, 0⟩)] ⟨2, "A", Side.buy, OType.limit, 100,
        50, 0, OStatus.accepted, 0⟩ [0, 1]).trades.length ∧
    (∀ j ∈ [0, 1].take ((matchLevel s0 Side.buy 0 [(0, ⟨0, "A", Side.sell,
        OType.limit, 100, 30, 0, OStatus.accepted, 0⟩), (1, ⟨1, "A", Side.sell,
        OType.limit, 100, 40, 0, OStatus.accepted, 0⟩)] ⟨2, "A", Side.buy,
        OType.limit, 100, 50, 0, OStatus.accepted, 0⟩ [0, 1]).trades.length - 1),
      (hfind (matchLevel s0 Side.buy 0 [(0, ⟨0, "A", Side.sell, OType.limit, 100,
        30, 0, OStatus.accepted, 0⟩), (1, ⟨1, "A", Side.sell, OType.limit, 100,
        40, 0, OStatus.accepted, 0⟩)] ⟨2, "A", Side.buy, OType.limit, 100, 50, 0,
        OStatus.accepted, 0⟩ [0, 1]).heap j).filledQuantity =
        (hfind (matchLevel s0 Side.buy 0 [(0, ⟨0, "A", Side.sell, OType.limit,
          100, 30, 0, OStatus.accepted, 0⟩), (1, ⟨1, "A", Side.sell, OType.limit,
          100, 40, 0, OStatus.accepted, 0⟩)] ⟨2, "A", Side.buy, OType.limit, 100,
          50, 0, OStatus.accepted, 0⟩ [0, 1]).heap j).quantity ∧
      (hfind (matchLevel s0 Side.buy 0 [(0, ⟨0, "A", Side.sell, OType.limit, 100,
        30, 0, OStatus.accepted, 0⟩), (1, ⟨1, "A", Side.sell, OType.limit, 100,
        40, 0, OStatus.accepted, 0⟩)] ⟨2, "A", Side.buy, OType.limit, 100, 50, 0,
        OStatus.accepted, 0⟩ [0, 1]).heap j).status = OStatus.filled) ∧
    (∀ j, j ∉ [0, 1].take (matchLevel s0 Side.buy 0 [(0, ⟨0, "A", Side.sell,
        OType.limit, 100, 30, 0, OStatus.accepted, 0⟩), (1, ⟨1, "A", Side.sell,
        OType.limit, 100, 40, 0, OStatus.accepted, 0⟩)] ⟨2, "A", Side.buy,
        OType.limit, 100, 50, 0, OStatus.accepted, 0⟩ [0, 1]).trades.length →
      hlookup (matchLevel s0 Side.buy 0 [(0, ⟨0, "A", Side.sell, OType.limit, 100,
        30, 0, OStatus.accepted, 0⟩), (1, ⟨1, "A", Side.sell, OType.limit, 100,
        40, 0, OStatus.accepted, 0⟩)] ⟨2, "A", Side.buy, OType.limit, 100, 50, 0,
        OStatus.accepted, 0⟩ [0, 1]).heap j =
        hlookup [(0, ⟨0, "A", Side.sell, OType.limit, 100, 30, 0,
          OStatus.accepted, 0⟩), (1, ⟨1, "A", Side.sell, OType.limit, 100, 40, 0,
          OStatus.accepted, 0⟩)] j) :=
  c6_fifo_price_time s0 Side.buy [0, 1] 0 [(0, ⟨0, "A", Side.sell, OType.limit,
    100, 30, 0, OStatus.accepted, 0⟩), (1, ⟨1, "A", Side.sell, OType.limit, 100,
    40, 0, OStatus.accepted, 0⟩)] ⟨2, "A", Side.buy, OType.limit, 100, 50, 0,
    OStatus.accepted, 0⟩ (by decide) (by decide)

theorem opposingOf_setOpposing (b : OrderBook) (side : Side)
    (ls : List PriceLevel) : opposingOf (setOpposing b side ls) side = ls := by
  cases side <;> simp [setOpposing, opposingOf]

theorem opposingOf_addOrderBook (b : OrderBook) (o : Order) (side : Side)
    (hs : o.side = side) :
    opposingOf (addOrderBook b o) side = opposingOf b side := by
  cases side <;> simp [addOrderBook, opposingOf, hs]

/-- C8: a LIMIT submission that cannot cross — its price strictly below the
best opposing ask for a buy, strictly above the best opposing bid for a sell,
or the opposing ladder empty — succeeds with exactly zero trades, leaves the
counterparty-side ladder untouched, and changes no existing order record. -/
theorem c8_no_cross_noop (s : Supply) (e : Engine) (sym : String) (side : Side)
    (price quantity : Int) (hq : 0 < quantity) (hp : 0 < price)
    (hnc : ∀ lvl ∈ (opposingOf (bookOf e sym) side).head?,
      if side = Side.buy then price < lvl.price else lvl.price < price) :
    (∃ res, (submitOrder s e sym side OType.limit price quantity).2 =
        Except.ok res ∧ res.trades = []) ∧
    opposingOf (bookOf (submitOrder s e sym side OType.limit price quantity).1 sym)
        side = opposingOf (bookOf e sym) side ∧
    ∀ j, j ≠ e.nextId →
      hlookup (submitOrder s e sym side OType.limit price quantity).1.heap j =
        hlookup e.heap j := by
  have hq' : ¬ quantity ≤ 0 := by omega
  have hp' : ¬ (OType.limit = OType.limit ∧ price ≤ 0) := fun hc => absurd hc.2 (by omega)
  have hmkt : ¬ (OType.limit = OType.market ∧
      sideRem e.heap (opposingOf (bookOf e sym) side) < quantity) :=
    fun hc => OType.noConfusion hc.1
  have hM : matchSide s side (e.tick + 1) e.heap
      (newOrder s e.tick e.nextId sym side OType.limit price quantity)
      (opposingOf (bookOf e sym) side) =
      ⟨e.tick + 1, e.heap,
       newOrder s e.tick e.nextId sym side OType.limit price quantity,
       opposingOf (bookOf e sym) side, []⟩ := by
    apply matchSide_noCross
    intro lvl hlvl
    exact ⟨rfl, hnc lvl hlvl⟩
  have hrest : (matchSide s side (e.tick + 1) e.heap
      (newOrder s e.tick e.nextId sym side OType.limit price quantity)
      (opposingOf (bookOf e sym) side)).agg.filledQuantity <
    (matchSide s side (e.tick + 1) e.heap
      (newOrder s e.tick e.nextId sym side OType.limit price quantity)
      (opposingOf (bookOf e sym) side)).agg.quantity ∧
    OType.limit = OType.limit := by
    rw [hM]
    exact ⟨hq, rfl⟩
  rw [submitOrder_rest s e sym side OType.limit price quantity hq' hp' hmkt hrest,
      hM]
  have hsome : (findBook (getOrCreateBooks e.books sym) sym).isSome = true := by
    rw [findBook_getOrCreate_self]
    rfl
  refine ⟨⟨_, rfl, rfl⟩, ?_, ?_⟩
  · show opposingOf ((findBook (setBook (getOrCreateBooks e.books sym) sym
      (addOrderBook (setOpposing (bookOf e sym) side
        (opposingOf (bookOf e sym) side))
        (newOrder s e.tick e.nextId sym side OType.limit price quantity))) sym).getD
      (emptyBook sym)) side = opposingOf (bookOf e sym) side
    rw [findBook_setBook_self _ sym _ hsome, Option.getD_some,
        opposingOf_addOrderBook (setOpposing (bookOf e sym) side
          (opposingOf (bookOf e sym) side))
          (newOrder s e.tick e.nextId sym side OType.limit price quantity) side rfl,
        opposingOf_setOpposing]
  · intro j hj
    exact hlookup_hinsert_of_ne e.heap _ j _ hj

/-- Closed instance of C8: a buy limit strictly below the resting best ask. -/
theorem c8_no_cross_noop_witness :
    (∃ res, (submitOrder s0 (submitOrder s0 emptyEngine "A" Side.sell OType.limit
        100 50).1 "A" Side.buy OType.limit 90 10).2 = Except.ok res ∧
      res.trades = []) ∧
    opposingOf (bookOf (submitOrder s0 (submitOrder s0 emptyEngine "A" Side.sell
        OType.limit 100 50).1 "A" Side.buy OType.limit 90 10).1 "A") Side.buy =
      opposingOf (bookOf (submitOrder s0 emptyEngine "A" Side.sell OType.limit
        100 50).1 "A") Side.buy ∧
    ∀ j, j ≠ (submitOrder s0 emptyEngine "A" Side.sell OType.limit 100 50).1.nextId →
      hlookup (submitOrder s0 (submitOrder s0 emptyEngine "A" Side.sell OType.limit
        100 50).1 "A" Side.buy OType.limit 90 10).1.heap j =
        hlookup (submitOrder s0 emptyEngine "A" Side.sell OType.limit 100 50).1.heap j :=
  c8_no_cross_noop s0 (submitOrder s0 emptyEngine "A" Side.sell OType.limit 100
    50).1 "A" Side.buy 90 10 (by decide) (by decide) (by decide)

theorem bookOf_setBook_orders (e : Engine) (heap2 : List (Nat × Order))
    (n t : Nat) (sym : String) (b : OrderBook)
    (hb : b.orders = (bookOf e sym).orders) (sym2 : String) :
    (bookOf (⟨heap2, setBook (getOrCreateBooks e.books sym) sym b, n, t⟩ : Engine)
      sym2).orders = (bookOf e sym2).orders := by
  unfold bookOf
  dsimp only
  by_cases hs2 : sym2 = sym
  · cases hs2
    rw [findBook_setBook_self _ sym _ (by rw [findBook_getOrCreate_self]; rfl),
        Option.getD_some, hb]
    rfl
  · rw [findBook_setBook_ne _ sym sym2 b hs2,
        findBook_getOrCreate_ne e.books sym sym2 hs2]

/-- C4: the MARKET liquidity precheck: with strictly less opposing remaining
quantity than requested, the submission fails with InsufficientLiquidity and
no book or order record changes; with enough liquidity it succeeds, the order
ends FILLED for exactly the requested quantity, reports zero remaining, and
rests nothing (no book's id index grows). -/
theorem c4_market_liquidity_precheck (s : Supply) (e : Engine) (sym : String)
    (side : Side) (price quantity : Int) (hq : 0 < quantity)
    (hnd : (levelIds (opposingOf (bookOf e sym) side)).Nodup)
    (hpos : remNonneg e.heap (opposingOf (bookOf e sym) side)) :
    (sideRem e.heap (opposingOf (bookOf e sym) side) < quantity →
      (submitOrder s e sym side OType.market price quantity).2 =
        Except.error SubmitErr.insufficientLiquidity ∧
      (submitOrder s e sym side OType.market price quantity).1.heap = e.heap ∧
      ∀ sym2, bookOf (submitOrder s e sym side OType.market price quantity).1 sym2 =
        bookOf e sym2) ∧
    (quantity ≤ sideRem e.heap (opposingOf (bookOf e sym) side) →
      (∃ res, (submitOrder s e sym side OType.market price quantity).2 =
          Except.ok res ∧ res.status = OStatus.filled ∧
        res.filledQuantity = quantity ∧ res.remainingQuantity = 0) ∧
      ∀ sym2, (bookOf (submitOrder s e sym side OType.market price quantity).1
          sym2).orders = (bookOf e sym2).orders) := by
  have hq' : ¬ quantity ≤ 0 := by omega
  have hp' : ¬ (OType.market = OType.limit ∧ price ≤ 0) :=
    fun hc => OType.noConfusion hc.1
  constructor
  · intro hlt
    rw [submitOrder_marketErr s e sym side OType.market price quantity hq' hp'
      ⟨rfl, hlt⟩]
    refine ⟨rfl, rfl, ?_⟩
    intro sym2
    unfold bookOf
    dsimp only
    by_cases hs2 : sym2 = sym
    · cases hs2
      rw [findBook_getOrCreate_self, Option.getD_some]
    · rw [findBook_getOrCreate_ne e.books sym sym2 hs2]
  · intro hge
    have hmkt : ¬ (OType.market = OType.market ∧
        sideRem e.heap (opposingOf (bookOf e sym) side) < quantity) :=
      fun hc => absurd hc.2 (by omega)
    have hrest : ¬ ((matchSide s side (e.tick + 1) e.heap
        (newOrder s e.tick e.nextId sym side OType.market price quantity)
        (opposingOf (bookOf e sym) side)).agg.filledQuantity <
      (matchSide s side (e.tick + 1) e.heap
        (newOrder s e.tick e.nextId sym side OType.market price quantity)
        (opposingOf (bookOf e sym) side)).agg.quantity ∧
      OType.market = OType.limit) := fun hc => OType.noConfusion hc.2
    rw [submitOrder_full s e sym side OType.market price quantity hq' hp' hmkt hrest]
    have hq2 : (matchSide s side (e.tick + 1) e.heap
        (newOrder s e.tick e.nextId sym side OType.market price quantity)
        (opposingOf (bookOf e sym) side)).agg.quantity = quantity := by
      rw [matchSide_agg_core]
      rfl
    have hf := matchSide_fill_min s side (opposingOf (bookOf e sym) side)
      (e.tick + 1) e.heap
      (newOrder s e.tick e.nextId sym side OType.market price quantity)
      hnd hpos (le_of_lt hq) rfl
    have hb1 : (newOrder s e.tick e.nextId sym side OType.market
      price quantity).quantity = quantity := rfl
    have hb2 : (newOrder s e.tick e.nextId sym side OType.market
      price quantity).filledQuantity = 0 := rfl
    have hfq : (matchSide s side (e.tick + 1) e.heap
        (newOrder s e.tick e.nextId sym side OType.market price quantity)
        (opposingOf (bookOf e sym) side)).agg.filledQuantity = quantity := by
      rw [hf, hb1, hb2]
      omega
    refine ⟨⟨_, rfl, ?_, hfq, rfl⟩, ?_⟩
    · show (if (matchSide s side (e.tick + 1) e.heap
          (newOrder s e.tick e.nextId sym side OType.market price quantity)
          (opposingOf (bookOf e sym) side)).agg.filledQuantity =
        (matchSide s side (e.tick + 1) e.heap
          (newOrder s e.tick e.nextId sym side OType.market price quantity)
          (opposingOf (bookOf e sym) side)).agg.quantity
        then OStatus.filled
        else (matchSide s side (e.tick + 1) e.heap
          (newOrder s e.tick e.nextId sym side OType.market price quantity)
          (opposingOf (bookOf e sym) side)).agg.status) = OStatus.filled
      rw [if_pos (by rw [hfq, hq2])]
    · intro sym2
      exact bookOf_setBook_orders e _ _ _ sym _ (setOpposing_orders _ _ _) sym2

/-- Closed instance of C4: a one-order book holding 50 units rejects a market
buy for 80 unchanged and completely fills a market buy for 30. -/
theorem c4_market_liquidity_precheck_witness :
    ((submitOrder s0 (submitOrder s0 emptyEngine "A" Side.sell OType.limit 100
        50).1 "A" Side.buy OType.market 0 80).2 =
      Except.error SubmitErr.insufficientLiquidity ∧
      (submitOrder s0 (submitOrder s0 emptyEngine "A" Side.sell OType.limit 100
        50).1 "A" Side.buy OType.market 0 80).1.heap =
        (submitOrder s0 emptyEngine "A" Side.sell OType.limit 100 50).1.heap ∧
      ∀ sym2, bookOf (submitOrder s0 (submitOrder s0 emptyEngine "A" Side.sell
          OType.limit 100 50).1 "A" Side.buy OType.market 0 80).1 sym2 =
        bookOf (submitOrder s0 emptyEngine "A" Side.sell OType.limit 100 50).1
          sym2) ∧
    ((∃ res, (submitOrder s0 (submitOrder s0 emptyEngine "A" Side.sell OType.limit
        100 50).1 "A" Side.buy OType.market 0 30).2 = Except.ok res ∧
      res.status = OStatus.filled ∧ res.filledQuantity = 30 ∧
      res.remainingQuantity = 0) ∧
      ∀ sym2, (bookOf (submitOrder s0 (submitOrder s0 emptyEngine "A" Side.sell
          OType.limit 100 50).1 "A" Side.buy OType.market 0 30).1 sym2).orders =
        (bookOf (submitOrder s0 emptyEngine "A" Side.sell OType.limit 100 50).1
          sym2).orders) :=
  ⟨(c4_market_liquidity_precheck s0 (submitOrder s0 emptyEngine "A" Side.sell
      OType.limit 100 50).1 "A" Side.buy 0 80 (by decide) (by decide)
      (by unfold remNonneg; decide)).1 (by decide),
   (c4_market_liquidity_precheck s0 (submitOrder s0 emptyEngine "A" Side.sell
      OType.limit 100 50).1 "A" Side.buy 0 30 (by decide) (by decide)
      (by unfold remNonneg; decide)).2 (by decide)⟩

theorem getOrder_eq_of_isSome (e : Engine) (i : Nat)
    (hs : (getOrder e i).isSome = true) :
    getOrder e i = some (hfind e.heap i) := by
  unfold getOrder at hs ⊢
  cases hfw : findBookWith e.books i with
  | none =>
    rw [hfw] at hs
    simp at hs
  | some p =>
    rfl

/-- C10: a LIMIT submission that partially fills and rests reports
PARTIAL_FILL only in the returned result; the stored order record keeps
status ACCEPTED (neither `SubmitOrder` nor the match loop sets the
aggressor's status), so an immediate `GetOrder` returns ACCEPTED with a
strictly positive filled quantity. -/
theorem c10_partial_fill_status (s : Supply) (e : Engine) (sym : String)
    (side : Side) (price quantity : Int) (res : OrderResult)
    (hsub : (submitOrder s e sym side OType.limit price quantity).2 = Except.ok res)
    (hpos : 0 < res.filledQuantity) (hrem : 0 < res.remainingQuantity) :
    res.status = OStatus.partialFill ∧
    ∃ o, getOrder (submitOrder s e sym side OType.limit price quantity).1
        res.orderId = some o ∧
      o.status = OStatus.accepted ∧ o.filledQuantity = res.filledQuantity ∧
      0 < o.filledQuantity := by
  have hs := getOrder_isSome_rest s e sym side OType.limit price quantity res
    hsub hrem
  by_cases hq : quantity ≤ 0
  · rw [submitOrder_invalidQuantity s e sym side OType.limit price quantity hq]
      at hsub
    exact Except.noConfusion hsub
  · by_cases hp : OType.limit = OType.limit ∧ price ≤ 0
    · rw [submitOrder_invalidPrice s e sym side OType.limit price quantity hq hp]
        at hsub
      exact Except.noConfusion hsub
    · have hmkt : ¬ (OType.limit = OType.market ∧
          sideRem e.heap (opposingOf (bookOf e sym) side) < quantity) :=
        fun hc => OType.noConfusion hc.1
      by_cases hrest : (matchSide s side (e.tick + 1) e.heap
          (newOrder s e.tick e.nextId sym side OType.limit price quantity)
          (opposingOf (bookOf e sym) side)).agg.filledQuantity <
        (matchSide s side (e.tick + 1) e.heap
          (newOrder s e.tick e.nextId sym side OType.limit price quantity)
          (opposingOf (bookOf e sym) side)).agg.quantity ∧
        OType.limit = OType.limit
      · rw [submitOrder_rest s e sym side OType.limit price quantity hq hp hmkt
          hrest] at hsub hs ⊢
        have hres := Except.ok.inj hsub
        have hstat : res.status = (if 0 < (matchSide s side (e.tick + 1) e.heap
            (newOrder s e.tick e.nextId sym side OType.limit price quantity)
            (opposingOf (bookOf e sym) side)).agg.filledQuantity
          then OStatus.partialFill else OStatus.accepted) := by
          rw [← hres]
        have hoid : res.orderId = (matchSide s side (e.tick + 1) e.heap
            (newOrder s e.tick e.nextId sym side OType.limit price quantity)
            (opposingOf (bookOf e sym) side)).agg.id := by
          rw [← hres]
        have hfq : res.filledQuantity = (matchSide s side (e.tick + 1) e.heap
            (newOrder s e.tick e.nextId sym side OType.limit price quantity)
            (opposingOf (bookOf e sym) side)).agg.filledQuantity := by
          rw [← hres]
        rw [hfq] at hpos
        have hfe : hfind (hinsert (matchSide s side (e.tick + 1) e.heap
            (newOrder s e.tick e.nextId sym side OType.limit price quantity)
            (opposingOf (bookOf e sym) side)).heap
            (matchSide s side (e.tick + 1) e.heap
              (newOrder s e.tick e.nextId sym side OType.limit price quantity)
              (opposingOf (bookOf e sym) side)).agg.id
            (matchSide s side (e.tick + 1) e.heap
              (newOrder s e.tick e.nextId sym side OType.limit price quantity)
              (opposingOf (bookOf e sym) side)).agg)
            (matchSide s side (e.tick + 1) e.heap
              (newOrder s e.tick e.nextId sym side OType.limit price quantity)
              (opposingOf (bookOf e sym) side)).agg.id =
            (matchSide s side (e.tick + 1) e.heap
              (newOrder s e.tick e.nextId sym side OType.limit price quantity)
              (opposingOf (bookOf e sym) side)).agg := by
          unfold hfind
          rw [hlookup_hinsert_self]
          rfl
        constructor
        · rw [hstat, if_pos hpos]
        · rw [getOrder_eq_of_isSome _ _ hs]
          refine ⟨_, rfl, ?_, ?_, ?_⟩
          · rw [hoid, hfe, matchSide_agg_core]
            rfl
          · rw [hoid, hfe, hfq]
          · rw [hoid, hfe]
            exact hpos
      · rw [submitOrder_full s e sym side OType.limit price quantity hq hp hmkt
          hrest] at hsub
        have hres := Except.ok.inj hsub
        cases hres
        exact absurd hrem (lt_irrefl 0)

/-- Closed instance of C10: a buy for 80 against 50 resting reports
PARTIAL_FILL, while the stored record stays ACCEPTED with 50 filled. -/
theorem c10_partial_fill_status_witness :
    (OStatus.partialFill : OStatus) = OStatus.partialFill ∧
    ∃ o, getOrder (submitOrder s0 (submitOrder s0 emptyEngine "A" Side.sell
        OType.limit 100 50).1 "A" Side.buy OType.limit 100 80).1 1 = some o ∧
      o.status = OStatus.accepted ∧ o.filledQuantity = 50 ∧
      0 < o.filledQuantity :=
  c10_partial_fill_status s0 (submitOrder s0 emptyEngine "A" Side.sell
    OType.limit 100 50).1 "A" Side.buy 100 80
    ⟨1, OStatus.partialFill, 50, 30, [⟨2, 100, 50, 2, 1, 0⟩]⟩
    rfl (by decide) (by decide)

theorem levelIds_opposing_sub (b : OrderBook) (side : Side) (j : Nat)
    (hj : j ∈ levelIds (opposingOf b side)) : j ∈ bookIds b := by
  unfold opposingOf at hj
  unfold bookIds
  split at hj
  · exact List.mem_append_right _ hj
  · exact List.mem_append_left _ hj

theorem bookIds_lt_nextId (e : Engine) (hfr : freshEngine e) (sym : String)
    (j : Nat) (hj : j ∈ bookIds (bookOf e sym)) : j < e.nextId := by
  unfold bookOf at hj
  cases hc : findBook e.books sym with
  | none =>
    rw [hc] at hj
    exact absurd hj (by simp [Option.getD, bookIds, emptyBook, levelIds])
  | some b =>
    rw [hc, Option.getD_some] at hj
    exact hfr.2.2 (sym, b) (findBook_mem e.books sym b hc) j hj

theorem sideRem_hinsert_notin (h : List (Nat × Order)) (i : Nat) (o : Order)
    (ls : List PriceLevel) (hni : i ∉ levelIds ls) :
    sideRem (hinsert h i o) ls = sideRem h ls :=
  sideRem_congr ls _ h
    (fun j hj => hlookup_hinsert_of_ne h i j o (fun hc => hni (hc ▸ hj)))

theorem bookOf_setBook_self (e : Engine) (heap2 : List (Nat × Order))
    (n t : Nat) (sym : String) (b : OrderBook) :
    bookOf (⟨heap2, setBook (getOrCreateBooks e.books sym) sym b, n, t⟩ : Engine)
      sym = b := by
  unfold bookOf
  dsimp only
  rw [findBook_setBook_self _ sym _ (by rw [findBook_getOrCreate_self]; rfl),
      Option.getD_some]

/-- C3 (amended): across any successful submission, the total traded quantity
equals the decrease in remaining quantity of the OPPOSING ladder; the frozen
both-books version fails because a partially filled limit aggressor rests its
remainder on its own ladder, which the combined total counts back in (see the
counterexample). -/
theorem c3_opposing_conservation (s : Supply) (e : Engine) (sym : String)
    (side : Side) (otype : OType) (price quantity : Int) (res : OrderResult)
    (hfr : freshEngine e)
    (hnd : (levelIds (opposingOf (bookOf e sym) side)).Nodup)
    (hsub : (submitOrder s e sym side otype price quantity).2 = Except.ok res) :
    sideRem (submitOrder s e sym side otype price quantity).1.heap
        (opposingOf (bookOf (submitOrder s e sym side otype price quantity).1 sym)
          side) =
      sideRem e.heap (opposingOf (bookOf e sym) side) - sumQty res.trades := by
  by_cases hq : quantity ≤ 0
  · rw [submitOrder_invalidQuantity s e sym side otype price quantity hq] at hsub
    exact Except.noConfusion hsub
  · by_cases hp : otype = OType.limit ∧ price ≤ 0
    · rw [submitOrder_invalidPrice s e sym side otype price quantity hq hp] at hsub
      exact Except.noConfusion hsub
    · by_cases hmkt : otype = OType.market ∧
          sideRem e.heap (opposingOf (bookOf e sym) side) < quantity
      · rw [submitOrder_marketErr s e sym side otype price quantity hq hp hmkt]
          at hsub
        exact Except.noConfusion hsub
      · by_cases hrest : (matchSide s side (e.tick + 1) e.heap
            (newOrder s e.tick e.nextId sym side otype price quantity)
            (opposingOf (bookOf e sym) side)).agg.filledQuantity <
          (matchSide s side (e.tick + 1) e.heap
            (newOrder s e.tick e.nextId sym side otype price quantity)
            (opposingOf (bookOf e sym) side)).agg.quantity ∧ otype = OType.limit
        · rw [submitOrder_rest s e sym side otype price quantity hq hp hmkt hrest]
            at hsub ⊢
          have hres := Except.ok.inj hsub
          have htr : res.trades = (matchSide s side (e.tick + 1) e.heap
              (newOrder s e.tick e.nextId sym side otype price quantity)
              (opposingOf (bookOf e sym) side)).trades := by
            rw [← hres]
          have hside : (matchSide s side (e.tick + 1) e.heap
              (newOrder s e.tick e.nextId sym side otype price quantity)
              (opposingOf (bookOf e sym) side)).agg.side = side := by
            rw [matchSide_agg_core]
            rfl
          have hid : (matchSide s side (e.tick + 1) e.heap
              (newOrder s e.tick e.nextId sym side otype price quantity)
              (opposingOf (bookOf e sym) side)).agg.id = e.nextId := by
            rw [matchSide_agg_core]
            rfl
          have hni : (matchSide s side (e.tick + 1) e.heap
              (newOrder s e.tick e.nextId sym side otype price quantity)
              (opposingOf (bookOf e sym) side)).agg.id ∉
              levelIds (matchSide s side (e.tick + 1) e.heap
                (newOrder s e.tick e.nextId sym side otype price quantity)
                (opposingOf (bookOf e sym) side)).levels := by
            intro hc
            have h1 := matchSide_levels_subset s side
              (opposingOf (bookOf e sym) side) (e.tick + 1) e.heap
              (newOrder s e.tick e.nextId sym side otype price quantity) _ hc
            have h2 := bookIds_lt_nextId e hfr sym _
              (levelIds_opposing_sub (bookOf e sym) side _ h1)
            rw [hid] at h2
            exact lt_irrefl _ h2
          dsimp only
          rw [bookOf_setBook_self e _ _ _ sym _,
              opposingOf_addOrderBook _ _ _ hside, opposingOf_setOpposing, htr,
              sideRem_hinsert_notin _ _ _ _ hni]
          exact matchSide_conservation s side (opposingOf (bookOf e sym) side)
            (e.tick + 1) e.heap
            (newOrder s e.tick e.nextId sym side otype price quantity) hnd
        · rw [submitOrder_full s e sym side otype price quantity hq hp hmkt hrest]
            at hsub ⊢
          have hres := Except.ok.inj hsub
          have htr : res.trades = (matchSide s side (e.tick + 1) e.heap
              (newOrder s e.tick e.nextId sym side otype price quantity)
              (opposingOf (bookOf e sym) side)).trades := by
            rw [← hres]
          dsimp only
          rw [bookOf_setBook_self e _ _ _ sym _, opposingOf_setOpposing, htr]
          exact matchSide_conservation s side (opposingOf (bookOf e sym) side)
            (e.tick + 1) e.heap
            (newOrder s e.tick e.nextId sym side otype price quantity) hnd

/-- C3 (counterexample to the frozen claim): a buy for 80 against 50 resting
trades 50 but rests 30, so combined remaining drops only by 20 — not by the
traded 50. -/
theorem c3_both_books_counterexample :
    ¬ (sumQty (match (submitOrder s0 (submitOrder s0 emptyEngine "A" Side.sell
          OType.limit 100 50).1 "A" Side.buy OType.limit 100 80).2 with
        | Except.ok res => res.trades
        | Except.error _ => []) =
      totalRem (submitOrder s0 emptyEngine "A" Side.sell OType.limit 100
          50).1.heap
          (bookOf (submitOrder s0 emptyEngine "A" Side.sell OType.limit 100 50).1
            "A") -
        totalRem (submitOrder s0 (submitOrder s0 emptyEngine "A" Side.sell
            OType.limit 100 50).1 "A" Side.buy OType.limit 100 80).1.heap
          (bookOf (submitOrder s0 (submitOrder s0 emptyEngine "A" Side.sell
            OType.limit 100 50).1 "A" Side.buy OType.limit 100 80).1 "A")) := by
  decide

/-- Closed instance of the amended C3 theorem: the ask-side remaining drops
from 50 to 0, exactly the traded quantity. -/
theorem c3_opposing_conservation_witness :
    sideRem (submitOrder s0 (submitOrder s0 emptyEngine "A" Side.sell OType.limit
        100 50).1 "A" Side.buy OType.limit 100 80).1.heap
        (opposingOf (bookOf (submitOrder s0 (submitOrder s0 emptyEngine "A"
          Side.sell OType.limit 100 50).1 "A" Side.buy OType.limit 100 80).1 "A")
          Side.buy) =
      sideRem (submitOrder s0 emptyEngine "A" Side.sell OType.limit 100 50).1.heap
        (opposingOf (bookOf (submitOrder s0 emptyEngine "A" Side.sell OType.limit
          100 50).1 "A") Side.buy) -
      sumQty [⟨2, 100, 50, 2, 1, 0⟩] :=
  c3_opposing_conservation s0 (submitOrder s0 emptyEngine "A" Side.sell
    OType.limit 100 50).1 "A" Side.buy OType.limit 100 80
    ⟨1, OStatus.partialFill, 50, 30, [⟨2, 100, 50, 2, 1, 0⟩]⟩
    (by unfold freshEngine; decide) (by decide) rfl
end OME
